import Mathlib

/-!
Verification of the rimca-core download planner and launch-argument builder.

The Rust sources embedded here are `src/librimca/src/vanilla/mod.rs` and
`src/librimca/src/download.rs`.  Paths are modelled as strings joined with
`"/"`; the filesystem is modelled by an `FS` record giving, for every path,
whether it exists and whether its content matches a given SHA-1 digest.
Network fetches (the asset index) are modelled by passing the already-parsed
`Assets` value as a parameter.
-/

namespace Rimca

/-- Association-list lookup, modelling `HashMap::get` / keyed access. -/
def alook {α : Type} : List (String × α) → String → Option α
  | [], _ => none
  | (k2, v) :: rest, k => if k2 = k then some v else alook rest k

/-- Path join, modelling `PathBuf::join` (rendered with `/`). -/
def pjoin (a b : String) : String := a ++ "/" ++ b

/-- Filesystem model: existence of a path, and whether the file at a path
has the given SHA-1 digest. -/
structure FS where
  present : String → Bool
  validAt : String → String → Bool

/-- Modelled from the spec: `verify::is_file_valid` (the file
`src/librimca/src/verify.rs` is not part of the sample).  Spec §4.1: the
check "fails (returns false, does not throw) if the path does not exist;
otherwise streams the file and compares a digest against the expected
value". -/
def is_file_valid (fs : FS) (path digest : String) : Bool :=
  if fs.present path then fs.validAt path digest else false

/-- A downloadable artifact of a library (`models::Artifact`): relative
path, SHA-1 digest and URL.  The struct definition lives in
`vanilla/models.rs`, which is not in the sample; the fields are the ones
accessed by `vanilla/mod.rs` (spec §3 LibraryEntry). -/
structure Artifact where
  path : String
  sha1 : String
  url : String
deriving DecidableEq

/-- Per-OS native classifier keys of a library (`lib.natives`). -/
structure Natives where
  windows : Option String
  linux : Option String
  macos : Option String
deriving DecidableEq

/-- OS condition of a rule (`rule.os`, with optional `name`). -/
structure OsSpec where
  name : Option String
deriving DecidableEq

/-- Inclusion rule of a library: an action (`"allow"` / `"disallow"`) and an
optional OS condition. -/
structure Rule where
  action : String
  os : Option OsSpec
deriving DecidableEq

/-- The `downloads` field of a library: optional primary artifact and
optional classifier map (classifier key → artifact). -/
structure LibDownloads where
  artifact : Option Artifact
  classifiers : Option (List (String × Artifact))
deriving DecidableEq

/-- A library entry of the manifest (spec §3 LibraryEntry). -/
structure Library where
  name : String
  downloads : LibDownloads
  natives : Option Natives
  rules : Option (List Rule)
deriving DecidableEq

/-- The client-binary download descriptor (`meta.downloads.client`). -/
structure ClientDownload where
  sha1 : String
  url : String
deriving DecidableEq

/-- The `downloads` field of the manifest. -/
structure MetaDownloads where
  client : ClientDownload
deriving DecidableEq

/-- The asset-index reference of the manifest (`meta.asset_index`). -/
structure AssetIndexRef where
  id : String
  url : String
deriving DecidableEq

/-- The per-version build manifest (`models::Meta`, spec §3 BuildManifest).
`type` is the Rust field `r#type`; `arguments` maps a group name
(`"game"` / `"jvm"`) to template strings. -/
structure Meta where
  id : String
  mainClass : String
  type : String
  downloads : MetaDownloads
  libraries : List Library
  assetIndex : AssetIndexRef
  arguments : List (String × List String)
deriving DecidableEq

/-- One object of the asset index (content hash). -/
structure AssetObject where
  hash : String
deriving DecidableEq

/-- The parsed asset index (`models::Assets`): logical key → object. -/
structure Assets where
  objects : List (String × AssetObject)
deriving DecidableEq

/-- One download task (`nizziel::Download`). -/
structure Download where
  url : String
  path : String
  unzip : Bool
deriving DecidableEq

/-- A download plan (`nizziel::Downloads`): retry budget plus task list. -/
structure Downloads where
  retries : Nat
  downloads : List Download
deriving DecidableEq

/-- Download-phase errors used by the embedded code. -/
inductive DownloadError where
  | GameVersionNotFound (v : String)
  | LibraryNoClassifiers (name : String)
  | PathNotFound (role : String)
deriving DecidableEq

/-- State-lookup error (`StateError::ComponentNotFound`). -/
inductive StateError where
  | ComponentNotFound (name : String)
deriving DecidableEq

/-- Which argument group was missing (`error::LaunchArguments`). -/
inductive LaunchArguments where
  | Game
  | Jvm
deriving DecidableEq

/-- Launch-phase errors used by the embedded code. -/
inductive LaunchError where
  | ArgumentsNotFound (a : LaunchArguments)
  | StateError (e : StateError)
  | PathNotFound (role : String)
deriving DecidableEq

/-- A persisted component record (`state::Component`; spec §3
ComponentRecord): a runtime (java) component with a path and optional extra
arguments, or a game component recording the installed version. -/
inductive Component where
  | JavaComponent (path : String) (arguments : Option String)
  | GameComponent (version : String)
deriving DecidableEq

/-- The installation state: component name → record. -/
abbrev State := List (String × Component)

/-- `State::get_component`: lookup failing with `ComponentNotFound`. -/
def getComponent (st : State) (name : String) : Except StateError Component :=
  match alook st name with
  | some c => .ok c
  | none => .error (.ComponentNotFound name)

/-- The path-role resolver (`Paths`): role name → filesystem path. -/
abbrev Paths := List (String × String)

/-- `paths.get(role)?` inside the download phase: unknown roles fail. -/
def getPathD (paths : Paths) (role : String) : Except DownloadError String :=
  match alook paths role with
  | some p => .ok p
  | none => .error (.PathNotFound role)

/-- `paths.get(role)?` inside the launch phase: unknown roles fail. -/
def getPathL (paths : Paths) (role : String) : Except LaunchError String :=
  match alook paths role with
  | some p => .ok p
  | none => .error (.PathNotFound role)

/-- An account record (`auth::Account`): uuid and access token. -/
structure Account where
  uuid : String
  access_token : String
deriving DecidableEq

/-- Modelled from the spec: `auth::Account::default()` (the file
`src/librimca/src/auth.rs` is not in the sample).  Spec §3: "a missing
account degrades to an anonymous/default placeholder". -/
def Account.anonymous : Account := ⟨"", ""⟩

/-- Modelled from the spec: the account store (`auth::Accounts`), a mapping
from username to account (spec §6: `get_account(username) -> Option`). -/
structure AccountsStore where
  accounts : List (String × Account)
deriving DecidableEq

/-- `get_account`: lookup by username. -/
def AccountsStore.get_account (s : AccountsStore) (username : String) : Option Account :=
  alook s.accounts username

/-- Appending one task to a plan (`dls.downloads.push(...)`). -/
def Downloads.push (dls : Downloads) (d : Download) : Downloads :=
  { dls with downloads := dls.downloads ++ [d] }

/-- The canonical client-jar install path
(`libraries/com/mojang/minecraft/<id>/minecraft-<id>-client.jar`),
from `collect_urls` lines 72–77 (and the same shape in `get_classpath`). -/
def clientJarPath (librariesRoot id : String) : String :=
  pjoin (pjoin (pjoin (pjoin (pjoin librariesRoot "com") "mojang") "minecraft") id)
    ("minecraft-" ++ id ++ "-client.jar")

/-- First two characters of a hash (`&hash.hash[0..2]`). -/
def hashHead (h : String) : String := ⟨h.data.take 2⟩

/-- Asset download URL
(`https://resources.download.minecraft.net/<head>/<hash>`). -/
def assetUrl (h : String) : String :=
  "https://resources.download.minecraft.net/" ++ hashHead h ++ "/" ++ h

/-- `process_natives` from `vanilla/mod.rs` lines 54–65: given the
classifier key selected for the running OS (or `None`), push the matching
native archive as an unzip task into the shared natives directory; a
declared key with no classifier map at all is `LibraryNoClassifiers`. -/
def process_natives (keyOpt : Option String) (nativesDir : String) (lib : Library)
    (dls : Downloads) : Except DownloadError Downloads :=
  match keyOpt with
  | none => .ok dls
  | some key =>
    match lib.downloads.classifiers with
    | none => .error (.LibraryNoClassifiers lib.name)
    | some cls =>
      match alook cls key with
      | some art => .ok (dls.push ⟨art.url, nativesDir, true⟩)
      | none => .ok dls

/-- The library-artifact step of the loop in `collect_urls` lines 93–102:
plan the primary artifact when it is missing or fails verification. -/
def artifactStep (librariesRoot : String) (fs : FS) (dls : Downloads) (lib : Library) :
    Downloads :=
  match lib.downloads.artifact with
  | some artifact =>
    let path := pjoin librariesRoot artifact.path
    if !fs.present path || !is_file_valid fs path artifact.sha1 then
      dls.push ⟨artifact.url, path, false⟩
    else dls
  | none => dls

/-- One iteration of the library loop of `collect_urls` (lines 91–110):
artifact step, then the OS dispatch into `process_natives`; an unrecognized
OS skips the natives step. -/
def collectLib (librariesRoot nativesDir os : String) (fs : FS) (dls : Downloads)
    (lib : Library) : Except DownloadError Downloads :=
  let dls := artifactStep librariesRoot fs dls lib
  match os with
  | "windows" => process_natives (lib.natives.bind (·.windows)) nativesDir lib dls
  | "linux" => process_natives (lib.natives.bind (·.linux)) nativesDir lib dls
  | "macos" => process_natives (lib.natives.bind (·.macos)) nativesDir lib dls
  | _ => .ok dls

/-- The legacy-layout asset step of `collect_urls` (lines 120–132):
destination `<instance>/resources/<key>`, guarded by
`!path.exists() && is_file_valid(&path, &hash)?`. -/
def legacyAssetStep (paths : Paths) (fs : FS) (dls : Downloads)
    (kv : String × AssetObject) : Except DownloadError Downloads := do
  let instanceRoot ← getPathD paths "instance"
  let path := pjoin (pjoin instanceRoot "resources") kv.1
  if !fs.present path && is_file_valid fs path kv.2.hash then
    pure (dls.push ⟨assetUrl kv.2.hash, path, false⟩)
  else
    pure dls

/-- The modern-layout asset step of `collect_urls` (lines 134–146):
destination `<assets>/objects/<head>/<hash>`, planned when absent. -/
def modernAssetStep (objectsDir : String) (fs : FS) (dls : Downloads)
    (kv : String × AssetObject) : Downloads :=
  let path := pjoin (pjoin objectsDir (hashHead kv.2.hash)) kv.2.hash
  if !fs.present path then dls.push ⟨assetUrl kv.2.hash, path, false⟩ else dls

/-- `collect_urls` from `vanilla/mod.rs` lines 68–149.  `versionId` is
`self.inner.version.id`; `assets` is the parsed asset index (its fetch is a
network effect outside the model); `os` is `std::env::consts::OS`. -/
def collect_urls (paths : Paths) (versionId : String) (meta : Meta) (assets : Assets)
    (fs : FS) (os : String) : Except DownloadError Downloads := do
  let dls : Downloads := ⟨5, []⟩
  let librariesRoot ← getPathD paths "libraries"
  let clientPath := clientJarPath librariesRoot versionId
  let dls :=
    if !fs.present clientPath || !is_file_valid fs clientPath meta.downloads.client.sha1 then
      dls.push ⟨meta.downloads.client.url, clientPath, false⟩
    else dls
  let nativesDir ← getPathD paths "natives"
  let dls ← meta.libraries.foldlM (collectLib librariesRoot nativesDir os fs) dls
  let _indexDir ← getPathD paths "assets"
  if meta.assetIndex.id = "pre-1.6" ∨ meta.assetIndex.id = "legacy" then
    assets.objects.foldlM (legacyAssetStep paths fs) dls
  else do
    let assetsRoot ← getPathD paths "assets"
    let objectsDir := pjoin assetsRoot "objects"
    pure (assets.objects.foldl (modernAssetStep objectsDir fs) dls)

/-- Fuel-indexed worker for `replaceList`; the fuel is only a structural
termination device and is always started at the length of the string. -/
def replaceFuel (p v : List Char) : Nat → List Char → List Char
  | _, [] => []
  | 0, s => s
  | Nat.succ n, c :: rest =>
    if p ≠ [] ∧ p <+: (c :: rest) then
      v ++ replaceFuel p v n ((c :: rest).drop p.length)
    else
      c :: replaceFuel p v n rest

/-- `str::replace` on character lists: replace every leftmost,
non-overlapping occurrence of `p` by `v`.  (All patterns appearing in the
embedded code are the literal non-empty placeholder tokens.) -/
def replaceList (p v s : List Char) : List Char := replaceFuel p v s.length s

/-- `String::replace(pat, v)` as used by the argument builders. -/
def sreplace (s pat v : String) : String := ⟨replaceList pat.data v.data s.data⟩

/-- `str::split_whitespace`, used for operator-supplied extra JVM
arguments: whitespace-separated words, no empty pieces. -/
def splitWsAux : List Char → List Char → List String
  | acc, [] => if acc.isEmpty then [] else [⟨acc.reverse⟩]
  | acc, c :: cs =>
    if c.isWhitespace then
      if acc.isEmpty then splitWsAux [] cs else ⟨acc.reverse⟩ :: splitWsAux [] cs
    else splitWsAux (c :: acc) cs

/-- `split_whitespace` wrapper on strings. -/
def splitWs (s : String) : List String := splitWsAux [] s.data

/-- OS-name normalization in `get_classpath` (line 232): the legacy alias
`"osx"` is rewritten to `"macos"` before comparing. -/
def normalizeOs (name : String) : String := if name = "osx" then "macos" else name

/-- One rule of the classpath filter (`get_classpath` lines 228–237): the
rule fires (skipping the library) when it names an OS and either allows an
OS different from the current one or disallows the current one. -/
def ruleExcludes (os : String) (r : Rule) : Bool :=
  match r.os with
  | some o =>
    match o.name with
    | some name =>
      let osName := normalizeOs name
      (r.action = "allow" && osName ≠ os) || (r.action = "disallow" && osName = os)
    | none => false
  | none => false

/-- The whole rule filter of `get_classpath` (lines 225–240): the
`continue 'outer` fires as soon as some rule excludes. -/
def libExcluded (os : String) (lib : Library) : Bool :=
  match lib.rules with
  | some rules => rules.any (ruleExcludes os)
  | none => false

/-- `get_classpath` from `vanilla/mod.rs` lines 209–258: rule-included
libraries with a primary artifact contribute `<libraries>/<path>` each
followed by a literal `';'`; the client jar path (built from `meta.id`) is
appended last, outside the filter. -/
def get_classpath (paths : Paths) (meta : Meta) (os : String) : Except LaunchError String := do
  let libraries ← getPathL paths "libraries"
  let classpath := meta.libraries.foldl
    (fun cp lib =>
      if libExcluded os lib then cp
      else
        match lib.downloads.artifact with
        | some artifact => cp ++ libraries ++ "/" ++ artifact.path ++ ";"
        | none => cp)
    ""
  let jarPath := clientJarPath libraries meta.id
  pure (classpath ++ jarPath)

/-- The placeholder-substitution chain of `get_game_options`
(lines 187–202), applied to one template string.  The braces of the
placeholder tokens and of the literal empty-object value are written with
character escapes. -/
def substGame (username version assetsPath assetIndexId metaType gameAssets : String)
    (account : Account) (x : String) : String :=
  let s1 := sreplace x "$\x7bauth_player_name\x7d" username
  let s2 := sreplace s1 "$\x7bversion_name\x7d" version
  let s3 := sreplace s2 "$\x7bgame_directory\x7d" "."
  let s4 := sreplace s3 "$\x7bassets_root\x7d" assetsPath
  let s5 := sreplace s4 "$\x7bassets_index_name\x7d" assetIndexId
  let s6 := sreplace s5 "$\x7bauth_uuid\x7d" account.uuid
  let s7 := sreplace s6 "$\x7bauth_access_token\x7d" account.access_token
  let s8 := sreplace s7 "$\x7buser_type\x7d" "mojang"
  let s9 := sreplace s8 "$\x7bversion_type\x7d" metaType
  let s10 := sreplace s9 "$\x7buser_properties\x7d" "\x7b\x7d"
  let s11 := sreplace s10 "$\x7bgame_assets\x7d" gameAssets
  sreplace s11 "$\x7bauth_session\x7d" "\x7b\x7d"

/-- `get_game_options` from `vanilla/mod.rs` lines 176–206: requires the
`"net.minecraft"` state record to be a `GameComponent` (its version, not
the manifest id, feeds `version_name`), resolves paths, requires the
`"game"` template group, looks the account up (missing → anonymous), and
maps the substitution chain over the templates. -/
def get_game_options (paths : Paths) (meta : Meta) (st : State) (store : AccountsStore)
    (username : String) : Except LaunchError (List String) :=
  match getComponent st "net.minecraft" with
  | .ok (.GameComponent version) => do
    let assetIndexId := meta.assetIndex.id
    let gameAssets ← getPathL paths "resources"
    let assetsPath ← getPathL paths "assets"
    let arguments ←
      match alook meta.arguments "game" with
      | some a => pure a
      | none => .error (.ArgumentsNotFound .Game)
    let _accountsPath ← getPathL paths "accounts"
    let account := (store.get_account username).getD Account.anonymous
    pure (arguments.map
      (substGame username version assetsPath assetIndexId meta.type gameAssets account))
  | _ => .error (.StateError (.ComponentNotFound "net.minecraft"))

/-- The template/fallback base list of `get_jvm_arguments` (lines 264–279):
substitute the `"jvm"` templates when present, otherwise the two-flag
fallback. -/
def jvmBase (meta : Meta) (nativesDir classpath : String) : List String :=
  match alook meta.arguments "jvm" with
  | some arguments =>
    arguments.map (fun x =>
      let s1 := sreplace x "$\x7bnatives_directory\x7d" nativesDir
      let s2 := sreplace s1 "$\x7blauncher_name\x7d" "rimca"
      let s3 := sreplace s2 "$\x7blauncher_version\x7d" "3.0"
      sreplace s3 "$\x7bclasspath\x7d" classpath)
  | none => ["-Djava.library.path=" ++ nativesDir, "-cp", classpath]

/-- `get_jvm_arguments` from `vanilla/mod.rs` lines 261–290: build the base
list, then require the `"java"` state record to be a `JavaComponent`
(anything else is `ComponentNotFound("java")`) and append its extra
runtime arguments split on whitespace. -/
def get_jvm_arguments (paths : Paths) (meta : Meta) (st : State) (classpath : String) :
    Except LaunchError (List String) := do
  let nativesDir ← getPathL paths "natives"
  let jvmArguments := jvmBase meta nativesDir classpath
  match getComponent st "java" with
  | .ok (.JavaComponent _ arguments) =>
    match arguments with
    | some args => pure (jvmArguments ++ splitWs args)
    | none => pure jvmArguments
  | _ => .error (.StateError (.ComponentNotFound "java"))

/-- An entry of the natives directory, as seen by the cleanup pass. -/
inductive FsEntry where
  | file (name : String)
  | dir (name : String)
deriving DecidableEq

/-- `Path::extension()`: the portion of the file name after the final
embedded `.`; `none` when there is no `.`, or when the only `.` is the
leading one. -/
def extOf (name : String) : Option String :=
  match name.data with
  | [] => none
  | c :: rest =>
    let core := if c = '.' then rest else c :: rest
    if '.' ∈ core then some ⟨(core.reverse.takeWhile (fun ch => ch ≠ '.')).reverse⟩
    else none

/-- The native-cleanup pass of `spawn_thread` (`download.rs` lines 55–71):
delete every regular file whose extension is not `dll` (including
extensionless files) and every subdirectory; keep exactly the top-level
`.dll` files. -/
def cleanupNatives (entries : List FsEntry) : List FsEntry :=
  entries.filter (fun e =>
    match e with
    | .file n =>
      match extOf n with
      | some ext => ext = "dll"
      | none => false
    | .dir _ => false)

/-- `spawn_thread` from `download.rs` lines 36–73, at the level of claims
about the natives directory: the download batch either succeeds (then the
cleanup pass runs synchronously over the natives directory, when it
exists) or fails (`download(dls).await.unwrap()` panics, so the cleanup
never runs and the directory is left as the batch left it).  The returned
pair is (outcome, final natives-directory contents). -/
def spawn_thread (downloadOk : Bool) (nativesDir : Option (List FsEntry)) :
    Except Unit Unit × Option (List FsEntry) :=
  if downloadOk then (.ok (), nativesDir.map cleanupNatives)
  else (.error (), nativesDir)

/-! Definitions supporting the claims: spec-side comparison definitions,
contribution functions used to characterize the planner's output, and the
placeholder-token machinery. -/

/-- Modelled from the spec: "the platform path-list separator" (spec §4.6);
`";"` on windows, `":"` elsewhere. -/
def pathListSeparator (os : String) : String := if os = "windows" then ";" else ":"

/-- Modelled from the spec: `classpath()` as worded in §4.6 — rule-included
libraries with a primary artifact contribute `<libraries>/<path>` "joined
with the platform path-list separator; the client jar path is appended
last".  Used to compare against the code's `get_classpath`. -/
def classpathSpec (paths : Paths) (meta : Meta) (os : String) : Except LaunchError String := do
  let libraries ← getPathL paths "libraries"
  let parts := meta.libraries.filterMap (fun lib =>
    if libExcluded os lib then none
    else lib.downloads.artifact.map (fun a => libraries ++ "/" ++ a.path))
  pure (String.intercalate (pathListSeparator os) (parts ++ [clientJarPath libraries meta.id]))

/-- The client jar location relative to the libraries root. -/
def clientRelPath (id : String) : String :=
  "com/mojang/minecraft/" ++ id ++ "/minecraft-" ++ id ++ "-client.jar"

/-- The library-artifact tasks one library contributes to the plan. -/
def artContrib (librariesRoot : String) (fs : FS) (lib : Library) : List Download :=
  match lib.downloads.artifact with
  | some a =>
    let p := pjoin librariesRoot a.path
    if !fs.present p || !is_file_valid fs p a.sha1 then [⟨a.url, p, false⟩] else []
  | none => []

/-- The task a modern-layout asset object contributes to the plan. -/
def modernAssetContrib (objectsDir : String) (fs : FS) (kv : String × AssetObject) :
    List Download :=
  let path := pjoin (pjoin objectsDir (hashHead kv.2.hash)) kv.2.hash
  if !fs.present path then [⟨assetUrl kv.2.hash, path, false⟩] else []

/-- Whether the client binary is planned (missing or failing verification). -/
def clientNeeded (librariesRoot versionId : String) (fs : FS) (meta : Meta) : Bool :=
  let cp := clientJarPath librariesRoot versionId
  !fs.present cp || !is_file_valid fs cp meta.downloads.client.sha1

/-- The native-classifier key `collect_urls` selects for the running OS
(`None` both for an unrecognized OS and for a library that does not name
the running OS). -/
def nativeKeySel (os : String) (lib : Library) : Option String :=
  match os with
  | "windows" => lib.natives.bind (·.windows)
  | "linux" => lib.natives.bind (·.linux)
  | "macos" => lib.natives.bind (·.macos)
  | _ => none

/-- The native-bundle task one library contributes to the plan on a given
OS (empty when the OS names no classifier key or the key is not in the
map; the malformed-manifest error case contributes nothing here because it
aborts planning instead). -/
def nativeContrib (os nd : String) (lib : Library) : List Download :=
  match nativeKeySel os lib with
  | none => []
  | some key =>
    match lib.downloads.classifiers with
    | none => []
    | some cls =>
      match alook cls key with
      | some art => [⟨art.url, nd, true⟩]
      | none => []

/-- The modern-layout destination of an asset object:
`<assets>/objects/<head>/<hash>`. -/
def assetDestPath (assetsRoot : String) (kv : String × AssetObject) : String :=
  pjoin (pjoin (pjoin assetsRoot "objects") (hashHead kv.2.hash)) kv.2.hash

/-- Destination paths of the non-native (`unzip = false`) tasks of a plan. -/
def nonNativePaths (dls : Downloads) : List String :=
  (dls.downloads.filter (fun d => d.unzip = false)).map (·.path)

/-- Two path roots that cannot alias: neither, with a trailing separator,
is a prefix of the other. -/
def rootsApart (a b : String) : Prop :=
  ¬ (a ++ "/").data <+: (b ++ "/").data ∧ ¬ (b ++ "/").data <+: (a ++ "/").data

/-- The rule-exclusion condition as worded by the spec (§4.6): some rule
names an OS and either allows a different OS than the current one or
disallows the current one, the legacy alias `"osx"` being normalized
before the comparison. -/
def SpecExcluded (os : String) (lib : Library) : Prop :=
  ∃ rules, lib.rules = some rules ∧ ∃ r ∈ rules, ∃ o, r.os = some o ∧
    ∃ name, o.name = some name ∧
      ((r.action = "allow" ∧ normalizeOs name ≠ os) ∨
        (r.action = "disallow" ∧ normalizeOs name = os))

/-- Character list of a placeholder token body followed by the closing
brace: `\x7b<key>\x7d`. -/
def tokTail (k : String) : List Char := '\x7b' :: (k.data ++ ['\x7d'])

/-- Character list of a placeholder token: `$\x7b<key>\x7d`. -/
def tok (k : String) : List Char := '$' :: tokTail k

/-- The substitution keys known to `get_game_options`, in replacement
order. -/
def knownGameKeys : List String :=
  ["auth_player_name", "version_name", "game_directory", "assets_root",
   "assets_index_name", "auth_uuid", "auth_access_token", "user_type",
   "version_type", "user_properties", "game_assets", "auth_session"]

/-- A chain of `replace` calls, as a fold over (pattern, value) pairs. -/
def applyPairs (ps : List (List Char × List Char)) (s : List Char) : List Char :=
  ps.foldl (fun s pv => replaceList pv.1 pv.2 s) s

/-- The (pattern, value) pairs of the `get_game_options` substitution
chain, in source order. -/
def gamePairs (username version assetsPath assetIndexId metaType gameAssets : String)
    (account : Account) : List (List Char × List Char) :=
  [(tok "auth_player_name", username.data),
   (tok "version_name", version.data),
   (tok "game_directory", ['.']),
   (tok "assets_root", assetsPath.data),
   (tok "assets_index_name", assetIndexId.data),
   (tok "auth_uuid", account.uuid.data),
   (tok "auth_access_token", account.access_token.data),
   (tok "user_type", "mojang".data),
   (tok "version_type", metaType.data),
   (tok "user_properties", ['\x7b', '\x7d']),
   (tok "game_assets", gameAssets.data),
   (tok "auth_session", ['\x7b', '\x7d'])]

/-- Conditions on a replacement value `v` relative to the token of key `k`
under which a `replace` by `v` can neither create nor re-create an
occurrence of that token: `v` is non-empty, does not contain the leading
`$`, no non-empty suffix of the token is a prefix of `v`, and `v` is not
an infix of the token. -/
def NonReintroducing (v : List Char) (k : String) : Prop :=
  v ≠ [] ∧ '$' ∉ v ∧ (∀ u ∈ (tok k).tails, u ≠ [] → ¬ u <+: v) ∧ ¬ v <:+: tok k

/-- A convenient sufficient condition for substitution values that are not
literals of the source: non-empty, free of `$` and of the closing brace,
and not an infix of any known token. -/
def CleanValue (v : List Char) : Prop :=
  v ≠ [] ∧ '$' ∉ v ∧ '\x7d' ∉ v ∧ ∀ k ∈ knownGameKeys, ¬ v <:+: tok k

instance (v : List Char) (k : String) : Decidable (NonReintroducing v k) :=
  decidable_of_iff
    (v ≠ [] ∧ '$' ∉ v ∧ (∀ u ∈ (tok k).tails, u ≠ [] → ¬ u <+: v) ∧ ¬ v <:+: tok k)
    Iff.rfl

instance (v : List Char) : Decidable (CleanValue v) :=
  decidable_of_iff
    (v ≠ [] ∧ '$' ∉ v ∧ '\x7d' ∉ v ∧ ∀ k ∈ knownGameKeys, ¬ v <:+: tok k)
    Iff.rfl

/-- The classpath contribution of one library: `<libraries>/<path>;` when
the library passes the rule filter and has a primary artifact. -/
def cpContrib (librariesRoot os : String) (lib : Library) : Option String :=
  if libExcluded os lib then none
  else lib.downloads.artifact.map (fun a => librariesRoot ++ "/" ++ a.path ++ ";")

/-- Concatenation of a list of strings. -/
def sconcat : List String → String
  | [] => ""
  | s :: rest => s ++ sconcat rest

/-- The classpath as actually produced: each included artifact followed by
a literal `';'`, then the client jar path. -/
def cpJoined (librariesRoot : String) (meta : Meta) (os : String) : String :=
  sconcat (meta.libraries.filterMap (cpContrib librariesRoot os)) ++
    clientJarPath librariesRoot meta.id

/-! Concrete example inputs used by counterexamples and witnesses. -/

/-- A path resolver with every role the embedded code uses. -/
def exPaths : Paths :=
  [("libraries", "L"), ("natives", "N"), ("assets", "A"), ("instance", "I"),
   ("resources", "R"), ("accounts", "Acc"), ("meta", "M")]

/-- A filesystem where every path is present and digest-valid. -/
def exFsAll : FS := ⟨fun _ => true, fun _ _ => true⟩

/-- A filesystem where every path is present and digest-valid except the
legacy-asset destination `I/resources/icons/a.png`, which is absent. -/
def exFsNoResource : FS :=
  ⟨fun p => decide (p ≠ "I/resources/icons/a.png"), fun _ _ => true⟩

/-- A minimal manifest with no libraries and a legacy asset index. -/
def exMetaLegacy : Meta :=
  { id := "1.16.4", mainClass := "mc", type := "release",
    downloads := ⟨⟨"csha", "curl"⟩⟩, libraries := [],
    assetIndex := ⟨"legacy", "iurl"⟩, arguments := [] }

/-- An asset index with a single object. -/
def exAssets1 : Assets := ⟨[("icons/a.png", ⟨"abcdef"⟩)]⟩

/-- A library carrying only a windows native classifier (url `u1`). -/
def exLibNat1 : Library :=
  { name := "l1", downloads := ⟨none, some [("natives-windows", ⟨"p", "s", "u1"⟩)]⟩,
    natives := some ⟨some "natives-windows", none, none⟩, rules := none }

/-- A second library carrying only a windows native classifier (url `u2`). -/
def exLibNat2 : Library :=
  { name := "l2", downloads := ⟨none, some [("natives-windows", ⟨"p", "s", "u2"⟩)]⟩,
    natives := some ⟨some "natives-windows", none, none⟩, rules := none }

/-- A manifest with two native-bearing libraries and a modern asset index. -/
def exMetaNatives : Meta :=
  { exMetaLegacy with libraries := [exLibNat1, exLibNat2], assetIndex := ⟨"1.16", "iurl"⟩ }

/-- A rule-free library with a primary artifact. -/
def exLibArt : Library :=
  { name := "l3", downloads := ⟨some ⟨"org/x/x.jar", "s", "u"⟩, none⟩,
    natives := none, rules := none }

/-- A manifest with one artifact library, for the classpath claims. -/
def exMetaCp : Meta := { exMetaLegacy with libraries := [exLibArt] }

/-- A library whose only rule is `allow: windows`. -/
def exLibAllowWin : Library :=
  { name := "lw", downloads := ⟨some ⟨"org/w/w.jar", "s", "u"⟩, none⟩,
    natives := none, rules := some [⟨"allow", some ⟨some "windows"⟩⟩] }

/-- An installation state holding the two records the download phase
creates: a java component with extra arguments and the game component. -/
def exState : State :=
  [("java", Component.JavaComponent "java" (some "-Xmx2G -Xms1G")),
   ("net.minecraft", Component.GameComponent "1.16.4")]

/-- A state whose records have the wrong variants under both keys. -/
def exStateWrong : State :=
  [("java", Component.GameComponent "1.16.4"),
   ("net.minecraft", Component.JavaComponent "java" none)]

/-- Ordinary game-argument templates covering every known key. -/
def exGameTemplates : List String :=
  ["--username", "$\x7bauth_player_name\x7d", "--version", "$\x7bversion_name\x7d",
   "--assetIndex", "$\x7bassets_index_name\x7d", "--userType", "$\x7buser_type\x7d",
   "--uuid", "$\x7bauth_uuid\x7d", "--accessToken", "$\x7bauth_access_token\x7d",
   "--versionType", "$\x7bversion_type\x7d", "--gameDir", "$\x7bgame_directory\x7d",
   "--assetsDir", "$\x7bassets_root\x7d", "--userProperties",
   "$\x7buser_properties\x7d", "--gameAssets", "$\x7bgame_assets\x7d",
   "--session", "$\x7bauth_session\x7d"]

/-- A manifest with ordinary game templates. -/
def exMetaGame : Meta :=
  { exMetaLegacy with arguments := [("game", exGameTemplates)] }

/-- An adversarial manifest whose asset-index id is itself a placeholder
token, re-introduced by the substitution chain. -/
def exMetaAdversarial : Meta :=
  { exMetaLegacy with
    assetIndex := ⟨"$\x7bauth_player_name\x7d", "u"⟩,
    arguments := [("game", ["$\x7bassets_index_name\x7d"])] }

/-- An account store holding one account for `Watson17`. -/
def exStore : AccountsStore := ⟨[("Watson17", ⟨"uuid-1", "token-1"⟩)]⟩

/-- A manifest with a single native-bearing library and a modern index. -/
def exMetaNative1 : Meta :=
  { exMetaLegacy with libraries := [exLibNat1], assetIndex := ⟨"1.16", "iurl"⟩ }

/-- A filesystem with nothing installed. -/
def exFsNone : FS := ⟨fun _ => false, fun _ _ => false⟩

/-- The plan of a fresh install of `exMetaNatives` with one modern asset. -/
def exPlanC2 : Downloads :=
  ⟨5, [⟨"curl", clientJarPath "L" "1.16.4", false⟩, ⟨"u1", "N", true⟩,
    ⟨"u2", "N", true⟩,
    ⟨assetUrl "abcdef", assetDestPath "A" ("icons/a.png", ⟨"abcdef"⟩), false⟩]⟩

deriving instance DecidableEq for Except

/-! Helper lemmas. -/

theorem exceptBindOk {ε α β : Type} (a : α) (f : α → Except ε β) :
    (Except.ok (ε := ε) a >>= f) = f a := rfl

theorem exceptBindErr {ε α β : Type} (e : ε) (f : α → Except ε β) :
    (Except.error (α := α) e >>= f) = Except.error e := rfl

theorem exceptPureEq {ε α : Type} (a : α) : (pure a : Except ε α) = Except.ok a := rfl

theorem getPathL_eq (paths : Paths) (r p : String) (h : alook paths r = some p) :
    getPathL paths r = .ok p := by
  simp [getPathL, h]

theorem getPathD_eq (paths : Paths) (r p : String) (h : alook paths r = some p) :
    getPathD paths r = .ok p := by
  simp [getPathD, h]

theorem getComponent_eq (st : State) (n : String) (c : Component)
    (h : alook st n = some c) : getComponent st n = .ok c := by
  simp [getComponent, h]

theorem getComponent_none (st : State) (n : String) (h : alook st n = none) :
    getComponent st n = .error (.ComponentNotFound n) := by
  simp [getComponent, h]

theorem ruleExcludes_iff (os : String) (r : Rule) :
    ruleExcludes os r = true ↔
      ∃ o, r.os = some o ∧ ∃ name, o.name = some name ∧
        ((r.action = "allow" ∧ normalizeOs name ≠ os) ∨
          (r.action = "disallow" ∧ normalizeOs name = os)) := by
  obtain ⟨act, osOpt⟩ := r
  cases osOpt with
  | none => simp [ruleExcludes]
  | some o =>
    obtain ⟨nameOpt⟩ := o
    cases nameOpt with
    | none => simp [ruleExcludes]
    | some name =>
      simp only [ruleExcludes, Bool.or_eq_true, Bool.and_eq_true, decide_eq_true_eq]
      constructor
      · intro h
        exact ⟨⟨some name⟩, rfl, name, rfl, h⟩
      · rintro ⟨o2, ho2, n2, hn2, h⟩
        have ho3 : (⟨some name⟩ : OsSpec) = o2 := Option.some.inj ho2
        subst ho3
        have hn3 : name = n2 := Option.some.inj hn2
        subst hn3
        exact h

/-! Claim theorems. -/

/-- C1: the code never plans a legacy-layout asset task, even when the
destination `<instance>/resources/<key>` is absent: the guard
`!path.exists() && is_file_valid(..)` is false for an absent path because
verification of a missing file returns false.  Here the destination
`I/resources/icons/a.png` is absent, everything else is installed, and the
plan is empty — the claim (and spec §4.4) requires one asset task. -/
theorem c1_legacy_absent_destination_not_planned :
    collect_urls exPaths "1.16.4" exMetaLegacy exAssets1 exFsNoResource "windows" =
      .ok ⟨5, []⟩ ∧
    exFsNoResource.present (pjoin (pjoin "I" "resources") "icons/a.png") = false := by
  decide

/-- C5: the classpath rule filter excludes a library exactly when some rule
allows an OS (normalized, `"osx"` → `"macos"`) different from the current
one or disallows the current one; a library without rules is always
included; a library whose only rule is `allow: windows` is excluded on
every other OS. -/
theorem c5_rule_filter :
    (∀ os lib, libExcluded os lib = true ↔ SpecExcluded os lib) ∧
    (∀ os lib, lib.rules = none → libExcluded os lib = false) ∧
    (∀ os lib, lib.rules = some [⟨"allow", some ⟨some "windows"⟩⟩] → os ≠ "windows" →
      libExcluded os lib = true) := by
  refine ⟨fun os lib => ?_, fun os lib h => by simp [libExcluded, h], fun os lib h hne => ?_⟩
  · cases hr : lib.rules with
    | none => simp [libExcluded, hr, SpecExcluded]
    | some rules =>
      simp only [libExcluded, hr, List.any_eq_true, SpecExcluded, Option.some.injEq]
      constructor
      · rintro ⟨r, hm, he⟩
        exact ⟨rules, rfl, r, hm, (ruleExcludes_iff os r).mp he⟩
      · rintro ⟨rules2, h2, r, hm, he⟩
        subst h2
        exact ⟨r, hm, (ruleExcludes_iff os r).mpr he⟩
  · have hwin : ¬("windows" = os) := fun hh => hne hh.symm
    simp [libExcluded, h, ruleExcludes, normalizeOs, hwin]

/-- C5 witness: a library whose only rule is `allow: windows` is excluded
on linux, and a rule-free library is included. -/
theorem c5_rule_filter_witness :
    libExcluded "linux" exLibAllowWin = true ∧ libExcluded "linux" exLibArt = false :=
  ⟨c5_rule_filter.2.2 "linux" exLibAllowWin rfl (by decide),
   c5_rule_filter.2.1 "linux" exLibArt rfl⟩

/-- C6: native-classifier handling — a declared key with no classifier map
fails with `LibraryNoClassifiers`; a key present in the map adds exactly
one `unzip = true` task into the shared natives directory; a key absent
from the map adds nothing without error; and the library loop dispatches
into `process_natives` with the key selected for the running OS, so an
unrecognized OS silently skips the natives step. -/
theorem c6_native_classifier_handling :
    (∀ nd lib dls key, lib.downloads.classifiers = none →
      process_natives (some key) nd lib dls = .error (.LibraryNoClassifiers lib.name)) ∧
    (∀ nd lib dls key cls art, lib.downloads.classifiers = some cls →
      alook cls key = some art →
      process_natives (some key) nd lib dls = .ok (dls.push ⟨art.url, nd, true⟩)) ∧
    (∀ nd lib dls key cls, lib.downloads.classifiers = some cls → alook cls key = none →
      process_natives (some key) nd lib dls = .ok dls) ∧
    (∀ nd lib dls, process_natives none nd lib dls = .ok dls) ∧
    (∀ libRoot nd os fs dls lib,
      collectLib libRoot nd os fs dls lib =
        process_natives (nativeKeySel os lib) nd lib (artifactStep libRoot fs dls lib)) := by
  refine ⟨fun nd lib dls key h => by simp [process_natives, h],
    fun nd lib dls key cls art h1 h2 => by simp [process_natives, h1, h2],
    fun nd lib dls key cls h1 h2 => by simp [process_natives, h1, h2],
    fun nd lib dls => rfl,
    fun libRoot nd os fs dls lib => ?_⟩
  simp only [collectLib, nativeKeySel]
  split <;> rfl

/-- C6 witness: the three classifier cases and the unrecognized-OS skip,
evaluated on concrete libraries. -/
theorem c6_native_classifier_handling_witness :
    process_natives (some "natives-windows") "N" exLibArt ⟨5, []⟩ =
      .error (.LibraryNoClassifiers "l3") ∧
    process_natives (some "natives-windows") "N" exLibNat1 ⟨5, []⟩ =
      .ok (Downloads.push ⟨5, []⟩ ⟨"u1", "N", true⟩) ∧
    process_natives (some "natives-linux") "N" exLibNat1 ⟨5, []⟩ = .ok ⟨5, []⟩ :=
  ⟨c6_native_classifier_handling.1 "N" exLibArt ⟨5, []⟩ "natives-windows" rfl,
   c6_native_classifier_handling.2.1 "N" exLibNat1 ⟨5, []⟩ "natives-windows"
     [("natives-windows", ⟨"p", "s", "u1"⟩)] ⟨"p", "s", "u1"⟩ rfl (by decide),
   c6_native_classifier_handling.2.2.1 "N" exLibNat1 ⟨5, []⟩ "natives-linux"
     [("natives-windows", ⟨"p", "s", "u1"⟩)] rfl (by decide)⟩

/-- C7: `get_jvm_arguments` fails with `ComponentNotFound("java")` whenever
the state has no `"java"` record, even though the base list (template
branch or fallback) was already built; with a `JavaComponent` present, its
extra runtime arguments are split on whitespace and appended after the
base list. -/
theorem c7_jvm_requires_java_component :
    (∀ paths meta st cp nd, alook paths "natives" = some nd → alook st "java" = none →
      get_jvm_arguments paths meta st cp =
        .error (.StateError (.ComponentNotFound "java"))) ∧
    (∀ paths meta st cp nd p args, alook paths "natives" = some nd →
      alook st "java" = some (.JavaComponent p (some args)) →
      get_jvm_arguments paths meta st cp = .ok (jvmBase meta nd cp ++ splitWs args)) ∧
    (∀ paths meta st cp nd p, alook paths "natives" = some nd →
      alook st "java" = some (.JavaComponent p none) →
      get_jvm_arguments paths meta st cp = .ok (jvmBase meta nd cp)) := by
  refine ⟨fun paths meta st cp nd h1 h2 => ?_, fun paths meta st cp nd p args h1 h2 => ?_,
    fun paths meta st cp nd p h1 h2 => ?_⟩ <;>
    simp [get_jvm_arguments, getPathL_eq _ _ _ h1, getComponent, h2, exceptBindOk,
      exceptPureEq]

/-- C7 witness: with the example state's java component, the extra
arguments are appended split on whitespace. -/
theorem c7_jvm_requires_java_component_witness :
    get_jvm_arguments exPaths exMetaLegacy exState "CP" =
      .ok (jvmBase exMetaLegacy "N" "CP" ++ splitWs "-Xmx2G -Xms1G") :=
  c7_jvm_requires_java_component.2.1 exPaths exMetaLegacy exState "CP" "N" "java"
    "-Xmx2G -Xms1G" (by decide) (by decide)

/-- C10: a component record of the wrong variant behaves like absence —
`get_game_options` fails with `ComponentNotFound("net.minecraft")` when
that key holds a `JavaComponent`, and `get_jvm_arguments` fails with
`ComponentNotFound("java")` when that key holds a `GameComponent`. -/
theorem c10_wrong_variant_is_absence :
    (∀ paths meta st store username p a,
      alook st "net.minecraft" = some (.JavaComponent p a) →
      get_game_options paths meta st store username =
        .error (.StateError (.ComponentNotFound "net.minecraft"))) ∧
    (∀ paths meta st cp nd v, alook paths "natives" = some nd →
      alook st "java" = some (.GameComponent v) →
      get_jvm_arguments paths meta st cp =
        .error (.StateError (.ComponentNotFound "java"))) := by
  refine ⟨fun paths meta st store username p a h => ?_,
    fun paths meta st cp nd v h1 h2 => ?_⟩
  · simp [get_game_options, getComponent, h]
  · simp [get_jvm_arguments, getPathL_eq _ _ _ h1, getComponent, h2, exceptBindOk,
      exceptPureEq]

/-- C10 witness: both accessors fail on the wrong-variant state. -/
theorem c10_wrong_variant_is_absence_witness :
    get_game_options exPaths exMetaGame exStateWrong exStore "Watson17" =
      .error (.StateError (.ComponentNotFound "net.minecraft")) ∧
    get_jvm_arguments exPaths exMetaLegacy exStateWrong "CP" =
      .error (.StateError (.ComponentNotFound "java")) :=
  ⟨c10_wrong_variant_is_absence.1 exPaths exMetaGame exStateWrong exStore "Watson17"
     "java" none (by decide),
   c10_wrong_variant_is_absence.2 exPaths exMetaLegacy exStateWrong "CP" "N" "1.16.4"
     (by decide) (by decide)⟩

/-- C9: after a successful batch the cleanup pass leaves only top-level
`.dll` files (every survivor is a regular file with extension `dll`, and
every `.dll` file is kept with unchanged multiplicity); on the failure
path the natives directory is untouched; on success the directory is
exactly the cleaned one. -/
theorem c9_native_cleanup :
    (∀ entries e, e ∈ cleanupNatives entries → ∃ n, e = .file n ∧ extOf n = some "dll") ∧
    (∀ entries n, extOf n = some "dll" →
      (cleanupNatives entries).count (FsEntry.file n) = entries.count (FsEntry.file n)) ∧
    (∀ d, spawn_thread false d = (.error (), d)) ∧
    (∀ entries, spawn_thread true (some entries) = (.ok (), some (cleanupNatives entries))) := by
  refine ⟨fun entries e he => ?_, fun entries n hn => ?_, fun d => rfl, fun entries => rfl⟩
  · rw [cleanupNatives, List.mem_filter] at he
    obtain ⟨-, hp⟩ := he
    cases e with
    | dir n => simp at hp
    | file n =>
      refine ⟨n, rfl, ?_⟩
      have hp2 : (match extOf n with
          | some ext => decide (ext = "dll")
          | none => false) = true := hp
      cases h : extOf n with
      | none => rw [h] at hp2; simp at hp2
      | some ext =>
        rw [h] at hp2
        simp only [decide_eq_true_eq] at hp2
        rw [hp2]
  · rw [cleanupNatives]
    refine List.count_filter ?_
    simp [hn]

/-- C9 witness: the survivor `a.dll` of a mixed directory is a `.dll`
file. -/
theorem c9_native_cleanup_witness :
    ∃ n, (FsEntry.file "a.dll") = FsEntry.file n ∧ extOf n = some "dll" :=
  c9_native_cleanup.1 [.file "a.dll", .file "b.so", .dir "sub"] (.file "a.dll") (by decide)

/-! Counterexample theorems for the corrected claims. -/

/-- C2 counterexample: with two native-bearing libraries on windows, the
plan holds two distinct tasks with the same destination (the shared
natives directory), refuting pairwise-distinct destinations. -/
theorem c2_counterexample :
    collect_urls exPaths "1.16.4" exMetaNatives ⟨[]⟩ exFsAll "windows" =
      .ok ⟨5, [⟨"u1", "N", true⟩, ⟨"u2", "N", true⟩]⟩ ∧
    (⟨"u1", "N", true⟩ : Download) ≠ ⟨"u2", "N", true⟩ ∧
    Download.path ⟨"u1", "N", true⟩ = Download.path ⟨"u2", "N", true⟩ := by
  decide

/-- C3 counterexample: on linux the code still joins with `';'`, not the
platform path-list separator `':'` demanded by the claim. -/
theorem c3_counterexample :
    get_classpath exPaths exMetaCp "linux" =
      .ok "L/org/x/x.jar;L/com/mojang/minecraft/1.16.4/minecraft-1.16.4-client.jar" ∧
    classpathSpec exPaths exMetaCp "linux" =
      .ok "L/org/x/x.jar:L/com/mojang/minecraft/1.16.4/minecraft-1.16.4-client.jar" ∧
    get_classpath exPaths exMetaCp "linux" ≠ classpathSpec exPaths exMetaCp "linux" := by
  decide

/-- C4 counterexample: with every destination present and digest-valid, a
library declaring a windows native still contributes a task on windows, so
the re-planned batch is not empty. -/
theorem c4_counterexample :
    collect_urls exPaths "1.16.4" exMetaNative1 ⟨[]⟩ exFsAll "windows" =
      .ok ⟨5, [⟨"u1", "N", true⟩]⟩ ∧
    ([⟨"u1", "N", true⟩] : List Download) ≠ [] := by
  decide

/-- C8 counterexample: a manifest whose asset-index id is itself the
`auth_player_name` token re-introduces it through the substitution chain,
so a known-key token survives in the output. -/
theorem c8_counterexample :
    get_game_options exPaths exMetaAdversarial exState exStore "Watson17" =
      .ok ["$\x7bauth_player_name\x7d"] ∧
    tok "auth_player_name" <:+: ("$\x7bauth_player_name\x7d" : String).data := by
  decide

/-! C3: the amended classpath characterization. -/

theorem cpFoldAux (L os : String) (libs : List Library) (acc : String) :
    libs.foldl
      (fun cp lib =>
        if libExcluded os lib then cp
        else
          match lib.downloads.artifact with
          | some artifact => cp ++ L ++ "/" ++ artifact.path ++ ";"
          | none => cp)
      acc = acc ++ sconcat (libs.filterMap (cpContrib L os)) := by
  induction libs generalizing acc with
  | nil => simp [sconcat]
  | cons lib rest ih =>
    simp only [List.foldl_cons, List.filterMap_cons]
    by_cases hx : libExcluded os lib = true
    · have hc : cpContrib L os lib = none := by simp [cpContrib, hx]
      rw [if_pos hx, hc]
      exact ih _
    · rw [if_neg hx]
      cases ha : lib.downloads.artifact with
      | none =>
        have hc : cpContrib L os lib = none := by simp [cpContrib, hx, ha]
        rw [hc]
        simp only [ha]
        exact ih _
      | some a =>
        have hc : cpContrib L os lib = some (L ++ "/" ++ a.path ++ ";") := by
          simp [cpContrib, hx, ha]
        rw [hc]
        simp only [ha]
        rw [ih]
        simp [sconcat, String.append_assoc]

/-- C3 amended: the classpath is each rule-included library artifact as
`<libraries>/<path>` followed by a literal `';'` on every platform (not
the platform separator), with the client jar path appended last — so the
output always ends with the client jar path. -/
theorem c3_amended (paths : Paths) (meta : Meta) (os L : String)
    (hL : alook paths "libraries" = some L) :
    get_classpath paths meta os = .ok (cpJoined L meta os) ∧
    (clientJarPath L meta.id).data <:+ (cpJoined L meta os).data := by
  constructor
  · simp only [get_classpath, getPathL_eq _ _ _ hL, exceptBindOk]
    rw [cpFoldAux]
    simp [cpJoined, exceptPureEq]
  · rw [cpJoined, String.data_append]
    exact List.suffix_append _ _

/-- C3 amended witness: the linux classpath of the one-library manifest is
the `';'`-joined form and ends with the client jar path. -/
theorem c3_amended_witness :
    get_classpath exPaths exMetaCp "linux" = .ok (cpJoined "L" exMetaCp "linux") ∧
    (clientJarPath "L" exMetaCp.id).data <:+ (cpJoined "L" exMetaCp "linux").data :=
  c3_amended exPaths exMetaCp "linux" "L" (by decide)

/-! Characterization of the planner's output, used by C2 and C4. -/

theorem artifactStep_eq (L : String) (fs : FS) (dls : Downloads) (lib : Library) :
    artifactStep L fs dls lib = ⟨dls.retries, dls.downloads ++ artContrib L fs lib⟩ := by
  obtain ⟨r, ds⟩ := dls
  simp only [artifactStep, artContrib]
  cases lib.downloads.artifact with
  | none => simp
  | some a =>
    by_cases hc :
        (!fs.present (pjoin L a.path) || !is_file_valid fs (pjoin L a.path) a.sha1) = true
    · simp [hc, Downloads.push]
    · simp [hc]

theorem collectLibDispatch (L nd os : String) (fs : FS) (dls : Downloads) (lib : Library) :
    collectLib L nd os fs dls lib =
      process_natives (nativeKeySel os lib) nd lib (artifactStep L fs dls lib) := by
  simp only [collectLib, nativeKeySel]
  split <;> rfl

theorem process_natives_ok (keyOpt : Option String) (nd : String) (lib : Library)
    (dls out : Downloads) (h : process_natives keyOpt nd lib dls = .ok out) :
    out = dls ∨ ∃ url, out = dls.push ⟨url, nd, true⟩ := by
  cases keyOpt with
  | none =>
    left
    rw [process_natives] at h
    exact (Except.ok.inj h).symm
  | some key =>
    cases hc : lib.downloads.classifiers with
    | none =>
      simp only [process_natives, hc] at h
      exact absurd h (by simp)
    | some cls =>
      cases ha : alook cls key with
      | some art =>
        right
        simp only [process_natives, hc, ha] at h
        exact ⟨art.url, (Except.ok.inj h).symm⟩
      | none =>
        left
        simp only [process_natives, hc, ha] at h
        exact (Except.ok.inj h).symm

theorem artContrib_unzip (L : String) (fs : FS) (lib : Library) :
    ∀ d ∈ artContrib L fs lib, d.unzip = false := by
  rw [artContrib]
  cases lib.downloads.artifact with
  | none => intro d hd; exact absurd hd (by simp)
  | some a =>
    intro d hd
    simp only [List.mem_ite_nil_right, List.mem_singleton] at hd
    obtain ⟨-, rfl⟩ := hd
    rfl

theorem collectLib_ok (L nd os : String) (fs : FS) (dls out : Downloads) (lib : Library)
    (h : collectLib L nd os fs dls lib = .ok out) :
    out.retries = dls.retries ∧
    out.downloads.filter (fun d => d.unzip = false) =
      dls.downloads.filter (fun d => d.unzip = false) ++ artContrib L fs lib ∧
    ∀ d ∈ out.downloads, d ∈ dls.downloads ∨ d.unzip = false ∨ d.path = nd := by
  rw [collectLibDispatch, artifactStep_eq] at h
  have hfA : (artContrib L fs lib).filter (fun d => d.unzip = false) = artContrib L fs lib :=
    List.filter_eq_self.mpr (fun d hd => by simp [artContrib_unzip L fs lib d hd])
  rcases process_natives_ok _ _ _ _ _ h with rfl | ⟨url, rfl⟩
  · refine ⟨rfl, ?_, ?_⟩
    · simp only [List.filter_append, hfA]
    · intro d hd
      rcases List.mem_append.mp hd with hmem | hart
      · exact Or.inl hmem
      · exact Or.inr (Or.inl (artContrib_unzip L fs lib d hart))
  · refine ⟨rfl, ?_, ?_⟩
    · simp only [Downloads.push, List.filter_append, hfA, List.append_assoc]
      simp
    · intro d hd
      simp only [Downloads.push] at hd
      rcases List.mem_append.mp hd with hmem | hone
      · rcases List.mem_append.mp hmem with hmem2 | hart
        · exact Or.inl hmem2
        · exact Or.inr (Or.inl (artContrib_unzip L fs lib d hart))
      · have : d = ⟨url, nd, true⟩ := by simpa using hone
        subst this
        exact Or.inr (Or.inr rfl)

theorem foldLibs_ok (L nd os : String) (fs : FS) :
    ∀ (libs : List Library) (dls out : Downloads),
      libs.foldlM (collectLib L nd os fs) dls = .ok out →
      out.retries = dls.retries ∧
      out.downloads.filter (fun d => d.unzip = false) =
        dls.downloads.filter (fun d => d.unzip = false) ++ libs.flatMap (artContrib L fs) ∧
      ∀ d ∈ out.downloads, d ∈ dls.downloads ∨ d.unzip = false ∨ d.path = nd := by
  intro libs
  induction libs with
  | nil =>
    intro dls out h
    rw [List.foldlM_nil] at h
    obtain rfl : dls = out := Except.ok.inj h
    exact ⟨rfl, by simp, fun d hd => Or.inl hd⟩
  | cons lib rest ih =>
    intro dls out h
    rw [List.foldlM_cons] at h
    cases hstep : collectLib L nd os fs dls lib with
    | error e => rw [hstep, exceptBindErr] at h; exact absurd h (by simp)
    | ok mid =>
      rw [hstep, exceptBindOk] at h
      obtain ⟨h1, h2, h3⟩ := collectLib_ok L nd os fs dls mid lib hstep
      obtain ⟨g1, g2, g3⟩ := ih mid out h
      refine ⟨g1.trans h1, ?_, ?_⟩
      · rw [g2, h2, List.flatMap_cons, List.append_assoc]
      · intro d hd
        rcases g3 d hd with hmem | hu | hp
        · rcases h3 d hmem with hmem2 | hu | hp
          · exact Or.inl hmem2
          · exact Or.inr (Or.inl hu)
          · exact Or.inr (Or.inr hp)
        · exact Or.inr (Or.inl hu)
        · exact Or.inr (Or.inr hp)

theorem modernAssetStep_eq (objectsDir : String) (fs : FS) (dls : Downloads)
    (kv : String × AssetObject) :
    modernAssetStep objectsDir fs dls kv =
      ⟨dls.retries, dls.downloads ++ modernAssetContrib objectsDir fs kv⟩ := by
  obtain ⟨r, ds⟩ := dls
  simp only [modernAssetStep, modernAssetContrib]
  by_cases hc : (!fs.present
      (pjoin (pjoin objectsDir (hashHead kv.2.hash)) kv.2.hash)) = true
  · simp [hc, Downloads.push]
  · simp [hc]

theorem foldModern_eq (objectsDir : String) (fs : FS) :
    ∀ (objs : List (String × AssetObject)) (dls : Downloads),
      objs.foldl (modernAssetStep objectsDir fs) dls =
        ⟨dls.retries, dls.downloads ++ objs.flatMap (modernAssetContrib objectsDir fs)⟩ := by
  intro objs
  induction objs with
  | nil => intro dls; simp
  | cons kv rest ih =>
    intro dls
    rw [List.foldl_cons, modernAssetStep_eq, ih]
    simp [List.append_assoc]

theorem modernAssetContrib_unzip (objectsDir : String) (fs : FS)
    (kv : String × AssetObject) : ∀ d ∈ modernAssetContrib objectsDir fs kv,
      d.unzip = false := by
  rw [modernAssetContrib]
  intro d hd
  simp only [List.mem_ite_nil_right, List.mem_singleton] at hd
  obtain ⟨-, rfl⟩ := hd
  rfl

theorem modernFlat_filter (objectsDir : String) (fs : FS)
    (objs : List (String × AssetObject)) :
    (objs.flatMap (modernAssetContrib objectsDir fs)).filter (fun d => d.unzip = false) =
      objs.flatMap (modernAssetContrib objectsDir fs) :=
  List.filter_eq_self.mpr (fun d hd => by
    simp only [decide_eq_true_eq]
    obtain ⟨kv, -, hkv⟩ := List.mem_flatMap.mp hd
    exact modernAssetContrib_unzip _ fs kv d hkv)

theorem legacyAssetStep_ok (paths : Paths) (fs : FS) (dls out : Downloads)
    (kv : String × AssetObject) (h : legacyAssetStep paths fs dls kv = .ok out) :
    out = dls := by
  cases hI : alook paths "instance" with
  | none =>
    simp only [legacyAssetStep, getPathD, hI, exceptBindErr] at h
    exact absurd h (by simp)
  | some instanceRoot =>
    simp only [legacyAssetStep, getPathD_eq _ _ _ hI, exceptBindOk] at h
    have hcond : ∀ p hash, (!fs.present p && is_file_valid fs p hash) = false := by
      intro p hash
      cases hpres : fs.present p <;> simp [is_file_valid, hpres]
    rw [hcond] at h
    simp only [Bool.false_eq_true, if_false, exceptPureEq] at h
    exact (Except.ok.inj h).symm

theorem foldLegacy_ok (paths : Paths) (fs : FS) :
    ∀ (objs : List (String × AssetObject)) (dls out : Downloads),
      objs.foldlM (legacyAssetStep paths fs) dls = .ok out → out = dls := by
  intro objs
  induction objs with
  | nil =>
    intro dls out h
    rw [List.foldlM_nil] at h
    exact (Except.ok.inj h).symm
  | cons kv rest ih =>
    intro dls out h
    rw [List.foldlM_cons] at h
    cases hstep : legacyAssetStep paths fs dls kv with
    | error e => rw [hstep, exceptBindErr] at h; exact absurd h (by simp)
    | ok mid =>
      rw [hstep, exceptBindOk] at h
      have := legacyAssetStep_ok paths fs dls mid kv hstep
      subst this
      exact ih mid out h

theorem collect_urls_ok (paths : Paths) (versionId : String) (meta : Meta)
    (assets : Assets) (fs : FS) (os L N A : String) (plan : Downloads)
    (hL : alook paths "libraries" = some L) (hN : alook paths "natives" = some N)
    (hA : alook paths "assets" = some A)
    (h : collect_urls paths versionId meta assets fs os = .ok plan) :
    plan.retries = 5 ∧
    plan.downloads.filter (fun d => d.unzip = false) =
      (if clientNeeded L versionId fs meta then
        [⟨meta.downloads.client.url, clientJarPath L versionId, false⟩] else []) ++
      meta.libraries.flatMap (artContrib L fs) ++
      (if meta.assetIndex.id = "pre-1.6" ∨ meta.assetIndex.id = "legacy" then []
       else assets.objects.flatMap (modernAssetContrib (pjoin A "objects") fs)) ∧
    ∀ d ∈ plan.downloads, d.unzip = true → d.path = N := by
  simp only [collect_urls, getPathD_eq _ _ _ hL, getPathD_eq _ _ _ hN,
    getPathD_eq _ _ _ hA, exceptBindOk] at h
  by_cases hcn : (!fs.present (clientJarPath L versionId) ||
      !is_file_valid fs (clientJarPath L versionId) meta.downloads.client.sha1) = true
  case pos =>
    rw [if_pos hcn] at h
    have hcn2 : clientNeeded L versionId fs meta = true := hcn
    rw [hcn2]
    cases hfold : meta.libraries.foldlM (collectLib L N os fs)
        (Downloads.push ⟨5, []⟩
          ⟨meta.downloads.client.url, clientJarPath L versionId, false⟩) with
    | error e => rw [hfold, exceptBindErr] at h; exact absurd h (by simp)
    | ok dls2 =>
      rw [hfold, exceptBindOk] at h
      obtain ⟨f1, f2, f3⟩ := foldLibs_ok L N os fs meta.libraries _ dls2 hfold
      have hd0filter : (Downloads.push ⟨5, []⟩
          ⟨meta.downloads.client.url, clientJarPath L versionId, false⟩).downloads.filter
            (fun d => d.unzip = false) =
          [⟨meta.downloads.client.url, clientJarPath L versionId, false⟩] := by
        simp [Downloads.push]
      by_cases hleg : (meta.assetIndex.id = "pre-1.6" ∨ meta.assetIndex.id = "legacy")
      · rw [if_pos hleg] at h
        obtain rfl : plan = dls2 := foldLegacy_ok paths fs assets.objects dls2 plan h
        refine ⟨f1, ?_, ?_⟩
        · rw [f2, hd0filter, if_pos hleg, List.append_nil]
          simp
        · intro d hd hu
          rcases f3 d hd with hmem | hfalse | hpath
          · simp only [Downloads.push, List.nil_append, List.mem_singleton] at hmem
            subst hmem
            simp at hu
          · rw [hfalse] at hu; exact absurd hu (by simp)
          · exact hpath
      · rw [if_neg hleg] at h
        rw [exceptPureEq] at h
        obtain rfl : plan = _ := (Except.ok.inj h).symm
        rw [foldModern_eq]
        refine ⟨f1, ?_, ?_⟩
        · rw [List.filter_append, f2, hd0filter, modernFlat_filter, if_neg hleg]
          simp [List.append_assoc]
        · intro d hd hu
          rcases List.mem_append.mp hd with hmem | hasset
          · rcases f3 d hmem with hmem2 | hfalse | hpath
            · simp only [Downloads.push, List.nil_append, List.mem_singleton] at hmem2
              subst hmem2
              simp at hu
            · rw [hfalse] at hu; exact absurd hu (by simp)
            · exact hpath
          · obtain ⟨kv, -, hkv⟩ := List.mem_flatMap.mp hasset
            rw [modernAssetContrib_unzip _ fs kv d hkv] at hu
            exact absurd hu (by simp)
  case neg =>
    rw [if_neg hcn] at h
    have hcn2 : clientNeeded L versionId fs meta = false := by
      rw [clientNeeded]
      exact Bool.not_eq_true _ ▸ (by simpa using hcn)
    rw [hcn2]
    cases hfold : meta.libraries.foldlM (collectLib L N os fs) (⟨5, []⟩ : Downloads) with
    | error e => rw [hfold, exceptBindErr] at h; exact absurd h (by simp)
    | ok dls2 =>
      rw [hfold, exceptBindOk] at h
      obtain ⟨f1, f2, f3⟩ := foldLibs_ok L N os fs meta.libraries _ dls2 hfold
      by_cases hleg : (meta.assetIndex.id = "pre-1.6" ∨ meta.assetIndex.id = "legacy")
      · rw [if_pos hleg] at h
        obtain rfl : plan = dls2 := foldLegacy_ok paths fs assets.objects dls2 plan h
        refine ⟨f1, ?_, ?_⟩
        · rw [f2, if_pos hleg, List.append_nil]
          simp
        · intro d hd hu
          rcases f3 d hd with hmem | hfalse | hpath
          · simp at hmem
          · rw [hfalse] at hu; exact absurd hu (by simp)
          · exact hpath
      · rw [if_neg hleg] at h
        rw [exceptPureEq] at h
        obtain rfl : plan = _ := (Except.ok.inj h).symm
        rw [foldModern_eq]
        refine ⟨f1, ?_, ?_⟩
        · rw [List.filter_append, f2, modernFlat_filter, if_neg hleg]
          simp [List.append_assoc]
        · intro d hd hu
          rcases List.mem_append.mp hd with hmem | hasset
          · rcases f3 d hmem with hmem2 | hfalse | hpath
            · simp at hmem2
            · rw [hfalse] at hu; exact absurd hu (by simp)
            · exact hpath
          · obtain ⟨kv, -, hkv⟩ := List.mem_flatMap.mp hasset
            rw [modernAssetContrib_unzip _ fs kv d hkv] at hu
            exact absurd hu (by simp)

theorem collectLib_ok_full (L nd os : String) (fs : FS) (dls out : Downloads)
    (lib : Library) (h : collectLib L nd os fs dls lib = .ok out) :
    out = ⟨dls.retries,
      dls.downloads ++ (artContrib L fs lib ++ nativeContrib os nd lib)⟩ := by
  rw [collectLibDispatch, artifactStep_eq] at h
  rw [nativeContrib]
  cases hks : nativeKeySel os lib with
  | none =>
    rw [hks] at h
    rw [process_natives] at h
    obtain rfl := (Except.ok.inj h).symm
    simp
  | some key =>
    rw [hks] at h
    cases hc : lib.downloads.classifiers with
    | none =>
      simp only [process_natives, hc] at h
      exact absurd h (by simp)
    | some cls =>
      cases ha : alook cls key with
      | some art =>
        simp only [process_natives, hc, ha] at h
        obtain rfl := (Except.ok.inj h).symm
        simp [Downloads.push, List.append_assoc, hc, ha]
      | none =>
        simp only [process_natives, hc, ha] at h
        obtain rfl := (Except.ok.inj h).symm
        simp [hc, ha]

theorem foldLibs_ok_full (L nd os : String) (fs : FS) :
    ∀ (libs : List Library) (dls out : Downloads),
      libs.foldlM (collectLib L nd os fs) dls = .ok out →
      out = ⟨dls.retries, dls.downloads ++
        libs.flatMap (fun lib => artContrib L fs lib ++ nativeContrib os nd lib)⟩ := by
  intro libs
  induction libs with
  | nil =>
    intro dls out h
    rw [List.foldlM_nil] at h
    obtain rfl : dls = out := Except.ok.inj h
    simp
  | cons lib rest ih =>
    intro dls out h
    rw [List.foldlM_cons] at h
    cases hstep : collectLib L nd os fs dls lib with
    | error e => rw [hstep, exceptBindErr] at h; exact absurd h (by simp)
    | ok mid =>
      rw [hstep, exceptBindOk] at h
      obtain rfl := collectLib_ok_full L nd os fs dls mid lib hstep
      rw [ih _ _ h]
      simp [List.append_assoc]

theorem collect_urls_ok_full (paths : Paths) (versionId : String) (meta : Meta)
    (assets : Assets) (fs : FS) (os L N A : String) (plan : Downloads)
    (hL : alook paths "libraries" = some L) (hN : alook paths "natives" = some N)
    (hA : alook paths "assets" = some A)
    (h : collect_urls paths versionId meta assets fs os = .ok plan) :
    plan = ⟨5,
      (if clientNeeded L versionId fs meta then
        [⟨meta.downloads.client.url, clientJarPath L versionId, false⟩] else []) ++
      meta.libraries.flatMap (fun lib => artContrib L fs lib ++ nativeContrib os N lib) ++
      (if meta.assetIndex.id = "pre-1.6" ∨ meta.assetIndex.id = "legacy" then []
       else assets.objects.flatMap (modernAssetContrib (pjoin A "objects") fs))⟩ := by
  simp only [collect_urls, getPathD_eq _ _ _ hL, getPathD_eq _ _ _ hN,
    getPathD_eq _ _ _ hA, exceptBindOk] at h
  by_cases hcn : (!fs.present (clientJarPath L versionId) ||
      !is_file_valid fs (clientJarPath L versionId) meta.downloads.client.sha1) = true
  case pos =>
    rw [if_pos hcn] at h
    have hcn2 : clientNeeded L versionId fs meta = true := hcn
    rw [hcn2]
    cases hfold : meta.libraries.foldlM (collectLib L N os fs)
        (Downloads.push ⟨5, []⟩
          ⟨meta.downloads.client.url, clientJarPath L versionId, false⟩) with
    | error e => rw [hfold, exceptBindErr] at h; exact absurd h (by simp)
    | ok dls2 =>
      rw [hfold, exceptBindOk] at h
      obtain rfl := foldLibs_ok_full L N os fs meta.libraries _ dls2 hfold
      by_cases hleg : (meta.assetIndex.id = "pre-1.6" ∨ meta.assetIndex.id = "legacy")
      · rw [if_pos hleg] at h
        obtain rfl := foldLegacy_ok paths fs assets.objects _ plan h
        rw [if_pos hleg]
        simp [Downloads.push]
      · rw [if_neg hleg, exceptPureEq] at h
        obtain rfl : plan = _ := (Except.ok.inj h).symm
        rw [foldModern_eq, if_neg hleg]
        simp [Downloads.push, List.append_assoc]
  case neg =>
    rw [if_neg hcn] at h
    have hcn2 : clientNeeded L versionId fs meta = false := by
      rw [clientNeeded]
      exact Bool.not_eq_true _ ▸ (by simpa using hcn)
    rw [hcn2]
    cases hfold : meta.libraries.foldlM (collectLib L N os fs) (⟨5, []⟩ : Downloads) with
    | error e => rw [hfold, exceptBindErr] at h; exact absurd h (by simp)
    | ok dls2 =>
      rw [hfold, exceptBindOk] at h
      obtain rfl := foldLibs_ok_full L N os fs meta.libraries _ dls2 hfold
      by_cases hleg : (meta.assetIndex.id = "pre-1.6" ∨ meta.assetIndex.id = "legacy")
      · rw [if_pos hleg] at h
        obtain rfl := foldLegacy_ok paths fs assets.objects _ plan h
        rw [if_pos hleg]
        simp
      · rw [if_neg hleg, exceptPureEq] at h
        obtain rfl : plan = _ := (Except.ok.inj h).symm
        rw [foldModern_eq, if_neg hleg]
        simp [List.append_assoc]

theorem nativeContrib_unzip (os nd : String) (lib : Library) :
    ∀ d ∈ nativeContrib os nd lib, d.unzip = true := by
  intro d hd
  rw [nativeContrib] at hd
  cases hks : nativeKeySel os lib with
  | none => simp only [hks] at hd; exact absurd hd (by simp)
  | some key =>
    simp only [hks] at hd
    cases hc : lib.downloads.classifiers with
    | none => simp only [hc] at hd; exact absurd hd (by simp)
    | some cls =>
      simp only [hc] at hd
      cases ha : alook cls key with
      | none => simp only [ha] at hd; exact absurd hd (by simp)
      | some art =>
        simp only [ha] at hd
        obtain rfl : d = ⟨art.url, nd, true⟩ := by simpa using hd
        rfl

theorem nativeContrib_resolved (os nd : String) (lib : Library) (key : String)
    (cls : List (String × Artifact)) (art : Artifact)
    (hk : nativeKeySel os lib = some key) (hc : lib.downloads.classifiers = some cls)
    (ha : alook cls key = some art) :
    nativeContrib os nd lib = [⟨art.url, nd, true⟩] := by
  rw [nativeContrib]
  simp only [hk, hc, ha]

theorem nativeContrib_nil_iff (os nd : String) (lib : Library) :
    nativeContrib os nd lib = [] ↔
      ∀ (key : String) (cls : List (String × Artifact)) (art : Artifact),
        ¬(nativeKeySel os lib = some key ∧ lib.downloads.classifiers = some cls ∧
          alook cls key = some art) := by
  constructor
  · intro hnil key cls art hres
    obtain ⟨hk, hc, ha⟩ := hres
    rw [nativeContrib_resolved os nd lib key cls art hk hc ha] at hnil
    exact absurd hnil (by simp)
  · intro hall
    cases hk : nativeKeySel os lib with
    | none => rw [nativeContrib]; simp only [hk]
    | some key =>
      cases hc : lib.downloads.classifiers with
      | none => rw [nativeContrib]; simp only [hk, hc]
      | some cls =>
        cases ha : alook cls key with
        | none => rw [nativeContrib]; simp only [hk, hc, ha]
        | some art => exact absurd ⟨hk, hc, ha⟩ (hall key cls art)

/-- C4 amended: when every client, library-artifact and asset destination
is present and digest-valid, the re-planned batch consists of exactly the
native-bundle tasks — no client, library or asset task survives; every
library whose OS natives key resolves to a classifier entry re-contributes
its task unconditionally, and the plan is empty exactly when no library
has such a resolvable classifier (a declared key absent from the
classifier map contributes nothing). -/
theorem c4_amended (paths : Paths) (versionId : String) (meta : Meta) (assets : Assets)
    (fs : FS) (os L N A : String) (plan : Downloads)
    (hL : alook paths "libraries" = some L) (hN : alook paths "natives" = some N)
    (hA : alook paths "assets" = some A)
    (hclient : fs.present (clientJarPath L versionId) = true)
    (hclientv : fs.validAt (clientJarPath L versionId) meta.downloads.client.sha1 = true)
    (hart : ∀ lib ∈ meta.libraries, ∀ a, lib.downloads.artifact = some a →
      fs.present (pjoin L a.path) = true ∧ fs.validAt (pjoin L a.path) a.sha1 = true)
    (hassets : ∀ kv ∈ assets.objects,
      fs.present (pjoin (pjoin (pjoin A "objects") (hashHead kv.2.hash)) kv.2.hash) = true)
    (h : collect_urls paths versionId meta assets fs os = .ok plan) :
    plan = ⟨5, meta.libraries.flatMap (nativeContrib os N)⟩ ∧
    plan.downloads.filter (fun d => d.unzip = false) = [] ∧
    (∀ lib ∈ meta.libraries,
      ∀ (key : String) (cls : List (String × Artifact)) (art : Artifact),
        nativeKeySel os lib = some key → lib.downloads.classifiers = some cls →
        alook cls key = some art →
        (⟨art.url, N, true⟩ : Download) ∈ plan.downloads) ∧
    (plan.downloads = [] ↔ ∀ lib ∈ meta.libraries,
      ∀ (key : String) (cls : List (String × Artifact)) (art : Artifact),
        ¬(nativeKeySel os lib = some key ∧ lib.downloads.classifiers = some cls ∧
          alook cls key = some art)) := by
  have hcn : clientNeeded L versionId fs meta = false := by
    simp [clientNeeded, is_file_valid, hclient, hclientv]
  have hartnil : ∀ lib ∈ meta.libraries, artContrib L fs lib = [] := by
    intro lib hlib
    rw [artContrib]
    cases ha : lib.downloads.artifact with
    | none => rfl
    | some a =>
      obtain ⟨hp, hv⟩ := hart lib hlib a ha
      simp [hp, is_file_valid, hv]
  have hassetnil :
      (if meta.assetIndex.id = "pre-1.6" ∨ meta.assetIndex.id = "legacy" then
        ([] : List Download)
       else assets.objects.flatMap (modernAssetContrib (pjoin A "objects") fs)) = [] := by
    by_cases hleg : (meta.assetIndex.id = "pre-1.6" ∨ meta.assetIndex.id = "legacy")
    · rw [if_pos hleg]
    · rw [if_neg hleg]
      refine List.flatMap_eq_nil_iff.mpr (fun kv hkv => ?_)
      rw [modernAssetContrib]
      simp [hassets kv hkv]
  have hplan : plan = ⟨5, meta.libraries.flatMap (nativeContrib os N)⟩ := by
    obtain rfl := collect_urls_ok_full paths versionId meta assets fs os L N A plan
      hL hN hA h
    rw [hcn, hassetnil]
    simp only [if_neg (by simp : ¬(false = true)), List.nil_append, List.append_nil]
    have hfm : meta.libraries.flatMap
        (fun lib => artContrib L fs lib ++ nativeContrib os N lib) =
        meta.libraries.flatMap (fun lib => nativeContrib os N lib) :=
      List.flatMap_congr (fun lib hlib => by rw [hartnil lib hlib, List.nil_append])
    rw [hfm]
  have hpd : plan.downloads = meta.libraries.flatMap (nativeContrib os N) := by
    rw [hplan]
  refine ⟨hplan, ?_, ?_, ?_⟩
  · rw [hpd, List.filter_eq_nil_iff]
    intro d hd
    obtain ⟨lib, hlib, hdn⟩ := List.mem_flatMap.mp hd
    rw [nativeContrib_unzip os N lib d hdn]
    simp
  · intro lib hlib key cls art hk hc ha
    rw [hpd]
    refine List.mem_flatMap.mpr ⟨lib, hlib, ?_⟩
    rw [nativeContrib_resolved os N lib key cls art hk hc ha]
    exact List.mem_singleton.mpr rfl
  · rw [hpd, List.flatMap_eq_nil_iff]
    constructor
    · intro hall lib hlib
      exact (nativeContrib_nil_iff os N lib).mp (hall lib hlib)
    · intro hall lib hlib
      exact (nativeContrib_nil_iff os N lib).mpr (hall lib hlib)

/-- C4 amended witness: a fully-installed instance with one windows-native
library re-plans exactly the one native task on windows. -/
theorem c4_amended_witness :
    (⟨5, [⟨"u1", "N", true⟩]⟩ : Downloads) =
      ⟨5, exMetaNative1.libraries.flatMap (nativeContrib "windows" "N")⟩ ∧
    (⟨5, [⟨"u1", "N", true⟩]⟩ : Downloads).downloads.filter
      (fun d => d.unzip = false) = [] ∧
    (∀ lib ∈ exMetaNative1.libraries,
      ∀ (key : String) (cls : List (String × Artifact)) (art : Artifact),
        nativeKeySel "windows" lib = some key → lib.downloads.classifiers = some cls →
        alook cls key = some art →
        (⟨art.url, "N", true⟩ : Download) ∈
          (⟨5, [⟨"u1", "N", true⟩]⟩ : Downloads).downloads) ∧
    ((⟨5, [⟨"u1", "N", true⟩]⟩ : Downloads).downloads = [] ↔
      ∀ lib ∈ exMetaNative1.libraries,
        ∀ (key : String) (cls : List (String × Artifact)) (art : Artifact),
          ¬(nativeKeySel "windows" lib = some key ∧
            lib.downloads.classifiers = some cls ∧ alook cls key = some art)) :=
  c4_amended exPaths "1.16.4" exMetaNative1 ⟨[]⟩ exFsAll "windows" "L" "N" "A" ⟨5,
      [⟨"u1", "N", true⟩]⟩
    (by decide) (by decide) (by decide) (by decide) (by decide)
    (by intro lib hlib a ha; exact ⟨rfl, rfl⟩)
    (by intro kv hkv; exact absurd hkv (List.not_mem_nil kv))
    (by decide)

/-! String lemmas for the destination-distinctness claim. -/

theorem sCancelLeft (a b c : String) (h : a ++ b = a ++ c) : b = c := by
  have hd := congrArg String.data h
  simp only [String.data_append] at hd
  exact String.ext (List.append_cancel_left hd)

theorem sAppendLeftInj (a : String) : Function.Injective (fun x => a ++ x) :=
  fun x y h => sCancelLeft a x y h

theorem clientJarPath_eq (L vid : String) :
    clientJarPath L vid = (L ++ "/") ++ clientRelPath vid := by
  apply String.ext
  simp only [clientJarPath, clientRelPath, pjoin, String.data_append]
  simp [List.append_assoc]

theorem assetDest_eq (A hh h : String) :
    pjoin (pjoin (pjoin A "objects") hh) h =
      (A ++ "/") ++ ("objects/" ++ hh ++ "/" ++ h) := by
  apply String.ext
  simp only [pjoin, String.data_append]
  simp [List.append_assoc]

theorem rootsApartNe (a b : String) (h : rootsApart a b) (x y : String) :
    (a ++ "/") ++ x ≠ (b ++ "/") ++ y := by
  intro heq
  have hx : (a ++ "/").data ++ x.data = (b ++ "/").data ++ y.data := by
    simpa [String.data_append] using congrArg String.data heq
  have h1 : (a ++ "/").data <+: ((a ++ "/").data ++ x.data) := List.prefix_append _ _
  have h2 : (b ++ "/").data <+: ((a ++ "/").data ++ x.data) := hx ▸ List.prefix_append _ _
  rcases List.prefix_or_prefix_of_prefix h1 h2 with hp | hp
  · exact h.1 hp
  · exact h.2 hp

theorem assetDestInj (A h1 h2 : String) (hl1 : 2 ≤ h1.data.length)
    (hl2 : 2 ≤ h2.data.length)
    (heq : assetDestPath A (("", ⟨h1⟩) : String × AssetObject) =
      assetDestPath A (("", ⟨h2⟩) : String × AssetObject)) : h1 = h2 := by
  rw [assetDestPath, assetDestPath, assetDest_eq, assetDest_eq] at heq
  have heq2 := sCancelLeft _ _ _ heq
  have hd := congrArg String.data heq2
  simp only [String.data_append, List.append_assoc] at hd
  have hd2 := List.append_cancel_left hd
  have hlen : (hashHead h1).data.length = (hashHead h2).data.length := by
    simp only [hashHead, List.length_take]
    omega
  obtain ⟨-, htail⟩ := List.append_inj hd2 hlen
  exact String.ext (List.append_cancel_left htail)

theorem fullFlat_filter (L nd os : String) (fs : FS) (libs : List Library) :
    (libs.flatMap (fun lib => artContrib L fs lib ++ nativeContrib os nd lib)).filter
        (fun d => d.unzip = false) =
      libs.flatMap (artContrib L fs) := by
  induction libs with
  | nil => simp
  | cons lib rest ih =>
    have h1 : (artContrib L fs lib).filter (fun d => d.unzip = false) =
        artContrib L fs lib :=
      List.filter_eq_self.mpr (fun d hd => by simp [artContrib_unzip L fs lib d hd])
    have h2 : (nativeContrib os nd lib).filter (fun d => d.unzip = false) = [] :=
      List.filter_eq_nil_iff.mpr (fun d hd => by simp [nativeContrib_unzip os nd lib d hd])
    rw [List.flatMap_cons, List.filter_append, List.filter_append, h1, h2, ih]
    simp

theorem artContrib_none (L : String) (fs : FS) (lib : Library)
    (ha : lib.downloads.artifact = none) : artContrib L fs lib = [] := by
  rw [artContrib, ha]

theorem artContrib_some (L : String) (fs : FS) (lib : Library) (a : Artifact)
    (ha : lib.downloads.artifact = some a) :
    artContrib L fs lib =
      if !fs.present (pjoin L a.path) || !is_file_valid fs (pjoin L a.path) a.sha1 then
        [⟨a.url, pjoin L a.path, false⟩]
      else [] := by
  rw [artContrib, ha]

theorem artPathsSublist (L : String) (fs : FS) (libs : List Library) :
    ((libs.flatMap (artContrib L fs)).map (fun d => d.path)).Sublist
      ((libs.filterMap (fun lib => lib.downloads.artifact)).map
        (fun a => pjoin L a.path)) := by
  induction libs with
  | nil => simp
  | cons lib rest ih =>
    rw [List.flatMap_cons, List.filterMap_cons]
    cases ha : lib.downloads.artifact with
    | none =>
      rw [artContrib_none L fs lib ha]
      simpa using ih
    | some a =>
      rw [artContrib_some L fs lib a ha]
      by_cases hc : (!fs.present (pjoin L a.path) ||
          !is_file_valid fs (pjoin L a.path) a.sha1) = true
      · rw [if_pos hc]
        simpa using List.Sublist.cons₂ (pjoin L a.path) ih
      · rw [if_neg hc]
        simpa using List.Sublist.cons (pjoin L a.path) ih

theorem modernAssetContrib_cases (oD : String) (fs : FS) (kv : String × AssetObject) :
    modernAssetContrib oD fs kv = [] ∨
      modernAssetContrib oD fs kv =
        [⟨assetUrl kv.2.hash, pjoin (pjoin oD (hashHead kv.2.hash)) kv.2.hash, false⟩] := by
  rw [modernAssetContrib]
  by_cases hc : (!fs.present (pjoin (pjoin oD (hashHead kv.2.hash)) kv.2.hash)) = true
  · right; rw [if_pos hc]
  · left; rw [if_neg hc]

theorem assetPathsSublist (A : String) (fs : FS) (objs : List (String × AssetObject)) :
    ((objs.flatMap (modernAssetContrib (pjoin A "objects") fs)).map
        (fun d => d.path)).Sublist
      (objs.map (assetDestPath A)) := by
  induction objs with
  | nil => simp
  | cons kv rest ih =>
    rw [List.flatMap_cons, List.map_cons]
    rcases modernAssetContrib_cases (pjoin A "objects") fs kv with hc | hc
    · rw [hc]
      simpa using List.Sublist.cons (assetDestPath A kv) ih
    · rw [hc]
      have : (pjoin (pjoin (pjoin A "objects") (hashHead kv.2.hash)) kv.2.hash) =
          assetDestPath A kv := rfl
      simpa [this] using List.Sublist.cons₂ (assetDestPath A kv) ih

/-- C2 amended: for a modern-layout manifest whose artifact paths are
pairwise distinct and distinct from the client-jar location, whose asset
hashes are pairwise distinct (and at least two characters long), and whose
libraries and assets roots cannot alias, the non-native tasks of the plan
have pairwise-distinct destinations, and every absent (or digest-invalid)
client/library/asset destination appears as a task exactly once.  Native
tasks are excluded: they all share the natives directory as destination. -/
theorem c2_amended (paths : Paths) (versionId : String) (meta : Meta) (assets : Assets)
    (fs : FS) (os L N A : String) (plan : Downloads)
    (hL : alook paths "libraries" = some L) (hN : alook paths "natives" = some N)
    (hA : alook paths "assets" = some A)
    (hmodern1 : meta.assetIndex.id ≠ "pre-1.6") (hmodern2 : meta.assetIndex.id ≠ "legacy")
    (hartnodup : ((meta.libraries.filterMap (fun lib => lib.downloads.artifact)).map
      (fun a => a.path)).Nodup)
    (hartclient : ∀ a ∈ meta.libraries.filterMap (fun lib => lib.downloads.artifact),
      a.path ≠ clientRelPath versionId)
    (hhashnodup : (assets.objects.map (fun kv => kv.2.hash)).Nodup)
    (hhashlen : ∀ kv ∈ assets.objects, 2 ≤ kv.2.hash.data.length)
    (hroots : rootsApart L A)
    (h : collect_urls paths versionId meta assets fs os = .ok plan) :
    (nonNativePaths plan).Nodup ∧
    (∀ p ∈ nonNativePaths plan, (nonNativePaths plan).count p = 1) ∧
    (clientNeeded L versionId fs meta = true →
      clientJarPath L versionId ∈ nonNativePaths plan) ∧
    (∀ lib ∈ meta.libraries, ∀ a, lib.downloads.artifact = some a →
      (!fs.present (pjoin L a.path) || !is_file_valid fs (pjoin L a.path) a.sha1) = true →
      pjoin L a.path ∈ nonNativePaths plan) ∧
    (∀ kv ∈ assets.objects, fs.present (assetDestPath A kv) = false →
      assetDestPath A kv ∈ nonNativePaths plan) := by
  have hleg : ¬(meta.assetIndex.id = "pre-1.6" ∨ meta.assetIndex.id = "legacy") := by
    rintro (h1 | h2)
    · exact hmodern1 h1
    · exact hmodern2 h2
  have hplan := collect_urls_ok_full paths versionId meta assets fs os L N A plan hL hN hA h
  rw [if_neg hleg] at hplan
  have hnn : nonNativePaths plan =
      (if clientNeeded L versionId fs meta then [clientJarPath L versionId] else []) ++
      (meta.libraries.flatMap (artContrib L fs)).map (fun d => d.path) ++
      (assets.objects.flatMap (modernAssetContrib (pjoin A "objects") fs)).map
        (fun d => d.path) := by
    rw [hplan]
    simp only [nonNativePaths]
    rw [List.filter_append, List.filter_append, fullFlat_filter, modernFlat_filter]
    by_cases hcn : clientNeeded L versionId fs meta = true
    · rw [if_pos hcn, if_pos hcn]
      simp [List.map_append]
    · rw [if_neg hcn, if_neg hcn]
      simp [List.map_append]
  rw [hnn]
  have hCP : (if clientNeeded L versionId fs meta then
      [clientJarPath L versionId] else ([] : List String)).Nodup := by
    split <;> simp
  have hAPsub := artPathsSublist L fs meta.libraries
  have hSPsub := assetPathsSublist A fs assets.objects
  have hallArt : ((meta.libraries.filterMap (fun lib => lib.downloads.artifact)).map
      (fun a => pjoin L a.path)).Nodup := by
    have hmm : (meta.libraries.filterMap (fun lib => lib.downloads.artifact)).map
        (fun a => pjoin L a.path) =
        ((meta.libraries.filterMap (fun lib => lib.downloads.artifact)).map
          (fun a => a.path)).map (fun s => (L ++ "/") ++ s) := by
      rw [List.map_map]
      rfl
    rw [hmm]
    exact List.Nodup.map (sAppendLeftInj (L ++ "/")) hartnodup
  have hAP : ((meta.libraries.flatMap (artContrib L fs)).map (fun d => d.path)).Nodup :=
    List.Nodup.sublist hAPsub hallArt
  have hallAsset : (assets.objects.map (assetDestPath A)).Nodup := by
    have hp0 : assets.objects.Pairwise (fun kv1 kv2 => kv1.2.hash ≠ kv2.2.hash) :=
      List.pairwise_map.mp hhashnodup
    have hp1 : assets.objects.Pairwise
        (fun kv1 kv2 => assetDestPath A kv1 ≠ assetDestPath A kv2) := by
      refine hp0.imp_of_mem (fun h1 h2 hne heq => ?_)
      exact hne (assetDestInj A _ _ (hhashlen _ h1) (hhashlen _ h2) heq)
    exact List.pairwise_map.mpr hp1
  have hSP : ((assets.objects.flatMap (modernAssetContrib (pjoin A "objects") fs)).map
      (fun d => d.path)).Nodup :=
    List.Nodup.sublist hSPsub hallAsset
  have hmemAP : ∀ x ∈ (meta.libraries.flatMap (artContrib L fs)).map (fun d => d.path),
      ∃ a ∈ meta.libraries.filterMap (fun lib => lib.downloads.artifact),
        x = pjoin L a.path := by
    intro x hx
    obtain ⟨a, ha, rfl⟩ := List.mem_map.mp (hAPsub.subset hx)
    exact ⟨a, ha, rfl⟩
  have hmemSP : ∀ x ∈ (assets.objects.flatMap
        (modernAssetContrib (pjoin A "objects") fs)).map (fun d => d.path),
      ∃ kv ∈ assets.objects, x = assetDestPath A kv := by
    intro x hx
    obtain ⟨kv, hkv, rfl⟩ := List.mem_map.mp (hSPsub.subset hx)
    exact ⟨kv, hkv, rfl⟩
  have hdisjCA : (if clientNeeded L versionId fs meta then
      [clientJarPath L versionId] else ([] : List String)).Disjoint
        ((meta.libraries.flatMap (artContrib L fs)).map (fun d => d.path)) := by
    intro x hx hx2
    rw [List.mem_ite_nil_right] at hx
    have hxeq := List.mem_singleton.mp hx.2
    subst hxeq
    obtain ⟨a, ha, heq⟩ := hmemAP _ hx2
    rw [clientJarPath_eq] at heq
    exact hartclient a ha (sCancelLeft (L ++ "/") _ _ heq.symm)
  have hdisjS : ((if clientNeeded L versionId fs meta then
      [clientJarPath L versionId] else ([] : List String)) ++
        (meta.libraries.flatMap (artContrib L fs)).map (fun d => d.path)).Disjoint
      ((assets.objects.flatMap (modernAssetContrib (pjoin A "objects") fs)).map
        (fun d => d.path)) := by
    intro x hx hxS
    obtain ⟨kv, -, rfl⟩ := hmemSP _ hxS
    rcases List.mem_append.mp hx with hxC | hxA
    · rw [List.mem_ite_nil_right] at hxC
      have hxc2 := List.mem_singleton.mp hxC.2
      rw [clientJarPath_eq] at hxc2
      rw [assetDestPath, assetDest_eq] at hxc2
      exact rootsApartNe A L ⟨hroots.2, hroots.1⟩ _ _ hxc2
    · obtain ⟨a, -, heq⟩ := hmemAP _ hxA
      rw [assetDestPath, assetDest_eq] at heq
      exact rootsApartNe A L ⟨hroots.2, hroots.1⟩ _ _ heq
  have hnodup : ((if clientNeeded L versionId fs meta then
      [clientJarPath L versionId] else ([] : List String)) ++
      (meta.libraries.flatMap (artContrib L fs)).map (fun d => d.path) ++
      (assets.objects.flatMap (modernAssetContrib (pjoin A "objects") fs)).map
        (fun d => d.path)).Nodup :=
    List.nodup_append.mpr ⟨List.nodup_append.mpr ⟨hCP, hAP, hdisjCA⟩, hSP, hdisjS⟩
  refine ⟨hnodup, fun p hp => List.count_eq_one_of_mem hnodup hp, ?_, ?_, ?_⟩
  · intro hcn
    apply List.mem_append_left
    apply List.mem_append_left
    rw [if_pos hcn]
    simp
  · intro lib hlib a ha hneed
    apply List.mem_append_left
    apply List.mem_append_right
    refine List.mem_map.mpr ⟨⟨a.url, pjoin L a.path, false⟩, ?_, rfl⟩
    refine List.mem_flatMap.mpr ⟨lib, hlib, ?_⟩
    rw [artContrib_some L fs lib a ha, if_pos hneed]
    simp
  · intro kv hkv habs
    apply List.mem_append_right
    refine List.mem_map.mpr
      ⟨⟨assetUrl kv.2.hash, assetDestPath A kv, false⟩, ?_, rfl⟩
    refine List.mem_flatMap.mpr ⟨kv, hkv, ?_⟩
    rw [modernAssetContrib]
    rw [if_pos (by simp [assetDestPath] at habs ⊢; rw [habs])]
    simp [assetDestPath]

/-- C2 amended witness: the fresh-install plan of the two-native-library
manifest with one modern asset has pairwise-distinct non-native
destinations, each absent destination appearing exactly once. -/
theorem c2_amended_witness :
    (nonNativePaths exPlanC2).Nodup ∧
    (∀ p ∈ nonNativePaths exPlanC2, (nonNativePaths exPlanC2).count p = 1) ∧
    (clientNeeded "L" "1.16.4" exFsNone exMetaNatives = true →
      clientJarPath "L" "1.16.4" ∈ nonNativePaths exPlanC2) ∧
    (∀ lib ∈ exMetaNatives.libraries, ∀ a, lib.downloads.artifact = some a →
      (!exFsNone.present (pjoin "L" a.path) ||
        !is_file_valid exFsNone (pjoin "L" a.path) a.sha1) = true →
      pjoin "L" a.path ∈ nonNativePaths exPlanC2) ∧
    (∀ kv ∈ exAssets1.objects, exFsNone.present (assetDestPath "A" kv) = false →
      assetDestPath "A" kv ∈ nonNativePaths exPlanC2) :=
  c2_amended exPaths "1.16.4" exMetaNatives exAssets1 exFsNone "windows" "L" "N" "A"
    exPlanC2 (by decide) (by decide) (by decide) (by decide) (by decide) (by decide)
    (by decide) (by decide) (by decide) ⟨by decide, by decide⟩ (by decide)

/-! Lemmas about `replaceFuel` / `replaceList`, used to settle the
placeholder-substitution claim. -/

theorem prefixThroughAppend {u v Y : List Char} (h : u <+: v ++ Y) :
    u <+: v ∨ (v <+: u ∧ u.drop v.length <+: Y) := by
  obtain ⟨t, ht⟩ := h
  rcases List.append_eq_append_iff.mp ht with ⟨a2, ha1, -⟩ | ⟨c2, hc1, hc2⟩
  · exact Or.inl ⟨a2, ha1.symm⟩
  · subst hc1
    refine Or.inr ⟨⟨c2, rfl⟩, ?_⟩
    rw [List.drop_left]
    exact ⟨t, hc2.symm⟩

theorem infixThroughAppend {t v Y : List Char} (h : t <:+: v ++ Y) :
    t <:+: v ∨ t <:+: Y ∨
      ∃ t1 t2, t = t1 ++ t2 ∧ t1 ≠ [] ∧ t2 ≠ [] ∧ t1 <:+ v ∧ t2 <+: Y := by
  obtain ⟨a, b, hab⟩ := h
  rcases List.append_eq_append_iff.mp hab with ⟨a2, hv, -⟩ | ⟨c2, hat, hY⟩
  · exact Or.inl ⟨a, a2, hv.symm⟩
  · rcases List.append_eq_append_iff.mp hat with ⟨a3, hv2, ht2⟩ | ⟨c3, -, hc2⟩
    · by_cases ha3 : a3 = []
      · subst ha3
        simp only [List.nil_append] at ht2
        exact Or.inr (Or.inl ⟨[], b, by simp [hY, ht2]⟩)
      · by_cases hc2nil : c2 = []
        · subst hc2nil
          rw [List.append_nil] at ht2
          exact Or.inl ⟨a, [], by simp [hv2, ht2]⟩
        · exact Or.inr (Or.inr ⟨a3, c2, ht2, ha3, hc2nil, ⟨a, hv2.symm⟩, ⟨b, hY.symm⟩⟩)
    · refine Or.inr (Or.inl ⟨c3, b, ?_⟩)
      rw [hY, hc2, List.append_assoc]

theorem infixConsCases {t Y : List Char} {c : Char} (h : t <:+: c :: Y) :
    t <+: c :: Y ∨ t <:+: Y := by
  obtain ⟨a, b, hab⟩ := h
  cases a with
  | nil =>
    simp only [List.nil_append] at hab
    exact Or.inl ⟨b, hab⟩
  | cons a0 a2 =>
    simp only [List.cons_append] at hab
    injection hab with h1 h2
    exact Or.inr ⟨a2, b, h2⟩

theorem replaceFuelPrefixInv (p v t : List Char) (_hv : v ≠ [])
    (htails : ∀ u ∈ t.tails, u ≠ [] → ¬ u <+: v) (hinf : ¬ v <:+: t) :
    ∀ n s u, s.length ≤ n → u <:+ t → u <+: replaceFuel p v n s → u <+: s := by
  intro n
  induction n with
  | zero =>
    intro s u hlen hut hu
    have hs : s = [] := List.length_eq_zero.mp (Nat.le_zero.mp hlen)
    subst hs
    exact hu
  | succ n ih =>
    intro s u hlen hut hu
    cases s with
    | nil => exact hu
    | cons c rest =>
      have hlen2 : rest.length ≤ n := by simp at hlen; omega
      simp only [replaceFuel] at hu
      by_cases hm : ((p ≠ [] ∧ p <+: (c :: rest)))
      · rw [if_pos hm] at hu
        cases u with
        | nil => exact List.nil_prefix
        | cons u0 u2 =>
          rcases prefixThroughAppend hu with hup | ⟨hvp, -⟩
          · exact absurd hup (htails _ ((List.mem_tails _ _).mpr hut) (by simp))
          · exact absurd (List.IsInfix.trans hvp.isInfix hut.isInfix) hinf
      · rw [if_neg hm] at hu
        cases u with
        | nil => exact List.nil_prefix
        | cons u0 u2 =>
          rw [List.cons_prefix_cons] at hu
          obtain ⟨rfl, hu2⟩ := hu
          have hu2t : u2 <:+ t := (List.suffix_cons u0 u2).trans hut
          exact List.cons_prefix_cons.mpr ⟨rfl, ih rest u2 hlen2 hu2t hu2⟩

theorem replaceFuelNoInfix (p v : List Char) (d : Char) (t2 : List Char) (hv : v ≠ [])
    (htails : ∀ u ∈ (d :: t2).tails, u ≠ [] → ¬ u <+: v)
    (hinf : ¬ v <:+: (d :: t2)) (hd : d ∉ v) :
    ∀ n s, s.length ≤ n → ¬ (d :: t2) <:+: s → ¬ (d :: t2) <:+: replaceFuel p v n s := by
  intro n
  induction n with
  | zero =>
    intro s hlen habs
    have hs : s = [] := List.length_eq_zero.mp (Nat.le_zero.mp hlen)
    subst hs
    exact habs
  | succ n ih =>
    intro s hlen habs
    cases s with
    | nil => exact habs
    | cons c rest =>
      have hlen2 : rest.length ≤ n := by simp at hlen; omega
      simp only [replaceFuel]
      by_cases hm : ((p ≠ [] ∧ p <+: (c :: rest)))
      · rw [if_pos hm]
        intro hcon
        rcases infixThroughAppend hcon with hiv | hiY | ⟨t1, t3, heq, ht1ne, -, ht1suf, -⟩
        · exact hd (hiv.subset (List.mem_cons_self d t2))
        · have hp1 : 0 < p.length := List.length_pos.mpr hm.1
          have hdrop : ¬ (d :: t2) <:+: ((c :: rest).drop p.length) := fun hx =>
            habs (hx.trans (List.drop_suffix _ _).isInfix)
          have hdlen : ((c :: rest).drop p.length).length ≤ n := by
            simp [List.length_drop]
            omega
          exact ih _ hdlen hdrop hiY
        · cases t1 with
          | nil => exact ht1ne rfl
          | cons x xs =>
            rw [List.cons_append] at heq
            injection heq with h1 h2
            subst h1
            exact hd (ht1suf.subset (List.mem_cons_self _ _))
      · rw [if_neg hm]
        intro hcon
        rcases infixConsCases hcon with hpre | hinY
        · rw [List.cons_prefix_cons] at hpre
          obtain ⟨heq1, hpre2⟩ := hpre
          have ht2rest : t2 <+: rest :=
            replaceFuelPrefixInv p v (d :: t2) hv htails hinf n rest t2 hlen2
              (List.suffix_cons d t2) hpre2
          exact habs (List.IsPrefix.isInfix (List.cons_prefix_cons.mpr ⟨heq1, ht2rest⟩))
        · exact ih rest hlen2 (fun hx => habs (List.infix_cons hx)) hinY

theorem replaceFuelRemoves (v : List Char) (d : Char) (t2 : List Char) (hv : v ≠ [])
    (htails : ∀ u ∈ (d :: t2).tails, u ≠ [] → ¬ u <+: v)
    (hinf : ¬ v <:+: (d :: t2)) (hd : d ∉ v) :
    ∀ n s, s.length ≤ n → ¬ (d :: t2) <:+: replaceFuel (d :: t2) v n s := by
  intro n
  induction n with
  | zero =>
    intro s hlen
    have hs : s = [] := List.length_eq_zero.mp (Nat.le_zero.mp hlen)
    subst hs
    simp [replaceFuel]
  | succ n ih =>
    intro s hlen
    cases s with
    | nil => simp [replaceFuel]
    | cons c rest =>
      have hlen2 : rest.length ≤ n := by simp at hlen; omega
      simp only [replaceFuel]
      by_cases hm : (((d :: t2) ≠ [] ∧ (d :: t2) <+: (c :: rest)))
      · rw [if_pos hm]
        intro hcon
        rcases infixThroughAppend hcon with hiv | hiY | ⟨t1, t3, heq, ht1ne, -, ht1suf, -⟩
        · exact hd (hiv.subset (List.mem_cons_self d t2))
        · have hdlen : ((c :: rest).drop (d :: t2).length).length ≤ n := by
            simp [List.length_drop]
            omega
          exact ih _ hdlen hiY
        · cases t1 with
          | nil => exact ht1ne rfl
          | cons x xs =>
            rw [List.cons_append] at heq
            injection heq with h1 h2
            subst h1
            exact hd (ht1suf.subset (List.mem_cons_self _ _))
      · rw [if_neg hm]
        have hnp : ¬ (d :: t2) <+: (c :: rest) := fun hx => hm ⟨by simp, hx⟩
        intro hcon
        rcases infixConsCases hcon with hpre | hinY
        · rw [List.cons_prefix_cons] at hpre
          obtain ⟨heq1, hpre2⟩ := hpre
          have ht2rest : t2 <+: rest :=
            replaceFuelPrefixInv (d :: t2) v (d :: t2) hv htails hinf n rest t2 hlen2
              (List.suffix_cons d t2) hpre2
          exact hnp (List.cons_prefix_cons.mpr ⟨heq1, ht2rest⟩)
        · exact ih rest hlen2 hinY

theorem replaceListNoInfix (p v : List Char) (d : Char) (t2 : List Char) (hv : v ≠ [])
    (htails : ∀ u ∈ (d :: t2).tails, u ≠ [] → ¬ u <+: v)
    (hinf : ¬ v <:+: (d :: t2)) (hd : d ∉ v) (s : List Char)
    (habs : ¬ (d :: t2) <:+: s) : ¬ (d :: t2) <:+: replaceList p v s :=
  replaceFuelNoInfix p v d t2 hv htails hinf hd s.length s le_rfl habs

theorem replaceListRemoves (v : List Char) (d : Char) (t2 : List Char) (hv : v ≠ [])
    (htails : ∀ u ∈ (d :: t2).tails, u ≠ [] → ¬ u <+: v)
    (hinf : ¬ v <:+: (d :: t2)) (hd : d ∉ v) (s : List Char) :
    ¬ (d :: t2) <:+: replaceList (d :: t2) v s :=
  replaceFuelRemoves v d t2 hv htails hinf hd s.length s le_rfl

theorem applyPairsPreserve (k : String) :
    ∀ (ps : List (List Char × List Char)),
      (∀ pv ∈ ps, NonReintroducing pv.2 k) →
      ∀ s, ¬ tok k <:+: s → ¬ tok k <:+: applyPairs ps s := by
  intro ps
  induction ps with
  | nil => intro _ s h; exact h
  | cons pv rest ih =>
    intro hall s habs
    have heq : applyPairs (pv :: rest) s = applyPairs rest (replaceList pv.1 pv.2 s) := rfl
    rw [heq]
    obtain ⟨hne, hdol, htails, hinf⟩ := hall pv (List.mem_cons_self pv rest)
    refine ih (fun q hq => hall q (List.mem_cons_of_mem pv hq)) _ ?_
    exact replaceListNoInfix pv.1 pv.2 '$' (tokTail k) hne htails hinf hdol s habs

theorem mk_data (t : List Char) : (String.mk t).data = t := rfl

theorem chainNoTokenAll (k : String) (ps : List (List Char × List Char))
    (hall : ∀ pv ∈ ps, NonReintroducing pv.2 k)
    (hsplit : ∃ ps1 v ps2, ps = ps1 ++ (tok k, v) :: ps2) :
    ∀ s, ¬ tok k <:+: applyPairs ps s := by
  obtain ⟨ps1, v, ps2, rfl⟩ := hsplit
  intro s
  have heq : applyPairs (ps1 ++ (tok k, v) :: ps2) s =
      applyPairs ps2 (replaceList (tok k) v (applyPairs ps1 s)) := by
    simp [applyPairs, List.foldl_append]
  rw [heq]
  obtain ⟨hne, hdol, htails, hinf⟩ := hall (tok k, v) (by simp)
  refine applyPairsPreserve k ps2 (fun q hq => hall q (by simp [hq])) _ ?_
  exact replaceListRemoves v '$' (tokTail k) hne htails hinf hdol _

theorem tok_eq_concat (k : String) : tok k = ('$' :: '\x7b' :: k.data) ++ ['\x7d'] := by
  simp [tok, tokTail]

theorem NonReintroducing_of_CleanValue (v : List Char) (hc : CleanValue v) :
    ∀ k ∈ knownGameKeys, NonReintroducing v k := by
  intro k hk
  obtain ⟨hne, hdol, hbrace, hinf⟩ := hc
  refine ⟨hne, hdol, ?_, hinf k hk⟩
  intro u hu hune hup
  have husuf : u <:+ tok k := (List.mem_tails _ _).mp hu
  have hlast : (tok k).getLast? = some '\x7d' := by
    rw [tok_eq_concat, List.getLast?_concat]
  obtain ⟨w, hw⟩ := husuf
  have hulast : u.getLast? = some '\x7d' := by
    rw [← hw, List.getLast?_append, List.getLast?_eq_getLast u hune] at hlast
    simpa [List.getLast?_eq_getLast u hune] using hlast
  have hmem : '\x7d' ∈ u := by
    rw [List.getLast?_eq_getLast u hune] at hulast
    have := List.getLast_mem hune
    rwa [Option.some.inj hulast] at this
  exact hbrace (hup.subset hmem)

theorem gamePairs_clean (ap ai mt ga : String) (acct : Account)
    (h1 : CleanValue ap.data) (h2 : CleanValue ai.data) (h3 : CleanValue acct.uuid.data)
    (h4 : CleanValue acct.access_token.data) (h5 : CleanValue mt.data)
    (h6 : CleanValue ga.data) :
    ∀ k ∈ knownGameKeys,
      ∀ pv ∈ gamePairs "Watson17" "1.16.4" ap ai mt ga acct,
        NonReintroducing pv.2 k := by
  intro k hk pv hpv
  simp only [gamePairs, List.mem_cons, List.not_mem_nil, or_false] at hpv
  rcases hpv with rfl | rfl | rfl | rfl | rfl | rfl | rfl | rfl | rfl | rfl | rfl | rfl
  · exact (by decide :
      ∀ k2 ∈ knownGameKeys, NonReintroducing ("Watson17" : String).data k2) k hk
  · exact (by decide :
      ∀ k2 ∈ knownGameKeys, NonReintroducing ("1.16.4" : String).data k2) k hk
  · exact (by decide : ∀ k2 ∈ knownGameKeys, NonReintroducing ['.'] k2) k hk
  · exact NonReintroducing_of_CleanValue _ h1 k hk
  · exact NonReintroducing_of_CleanValue _ h2 k hk
  · exact NonReintroducing_of_CleanValue _ h3 k hk
  · exact NonReintroducing_of_CleanValue _ h4 k hk
  · exact (by decide :
      ∀ k2 ∈ knownGameKeys, NonReintroducing ("mojang" : String).data k2) k hk
  · exact NonReintroducing_of_CleanValue _ h5 k hk
  · exact (by decide : ∀ k2 ∈ knownGameKeys, NonReintroducing ['\x7b', '\x7d'] k2) k hk
  · exact NonReintroducing_of_CleanValue _ h6 k hk
  · exact (by decide : ∀ k2 ∈ knownGameKeys, NonReintroducing ['\x7b', '\x7d'] k2) k hk

theorem gamePairs_split (u ver ap ai mt ga : String) (acct : Account) :
    ∀ k ∈ knownGameKeys, ∃ ps1 v ps2,
      gamePairs u ver ap ai mt ga acct = ps1 ++ (tok k, v) :: ps2 := by
  intro k hk
  simp only [knownGameKeys, List.mem_cons, List.not_mem_nil, or_false] at hk
  rcases hk with rfl | rfl | rfl | rfl | rfl | rfl | rfl | rfl | rfl | rfl | rfl | rfl
  · exact ⟨(gamePairs u ver ap ai mt ga acct).take 0, u.data,
      (gamePairs u ver ap ai mt ga acct).drop 1, rfl⟩
  · exact ⟨(gamePairs u ver ap ai mt ga acct).take 1, ver.data,
      (gamePairs u ver ap ai mt ga acct).drop 2, rfl⟩
  · exact ⟨(gamePairs u ver ap ai mt ga acct).take 2, ['.'],
      (gamePairs u ver ap ai mt ga acct).drop 3, rfl⟩
  · exact ⟨(gamePairs u ver ap ai mt ga acct).take 3, ap.data,
      (gamePairs u ver ap ai mt ga acct).drop 4, rfl⟩
  · exact ⟨(gamePairs u ver ap ai mt ga acct).take 4, ai.data,
      (gamePairs u ver ap ai mt ga acct).drop 5, rfl⟩
  · exact ⟨(gamePairs u ver ap ai mt ga acct).take 5, acct.uuid.data,
      (gamePairs u ver ap ai mt ga acct).drop 6, rfl⟩
  · exact ⟨(gamePairs u ver ap ai mt ga acct).take 6, acct.access_token.data,
      (gamePairs u ver ap ai mt ga acct).drop 7, rfl⟩
  · exact ⟨(gamePairs u ver ap ai mt ga acct).take 7, ("mojang" : String).data,
      (gamePairs u ver ap ai mt ga acct).drop 8, rfl⟩
  · exact ⟨(gamePairs u ver ap ai mt ga acct).take 8, mt.data,
      (gamePairs u ver ap ai mt ga acct).drop 9, rfl⟩
  · exact ⟨(gamePairs u ver ap ai mt ga acct).take 9, ['\x7b', '\x7d'],
      (gamePairs u ver ap ai mt ga acct).drop 10, rfl⟩
  · exact ⟨(gamePairs u ver ap ai mt ga acct).take 10, ga.data,
      (gamePairs u ver ap ai mt ga acct).drop 11, rfl⟩
  · exact ⟨(gamePairs u ver ap ai mt ga acct).take 11, ['\x7b', '\x7d'],
      (gamePairs u ver ap ai mt ga acct).drop 12, rfl⟩

theorem substGame_eq_applyPairs (u ver ap ai mt ga : String) (acct : Account)
    (x : String) :
    substGame u ver ap ai mt ga acct x =
      ⟨applyPairs (gamePairs u ver ap ai mt ga acct) x.data⟩ := by
  have e1 : ("$\x7bauth_player_name\x7d" : String).data = tok "auth_player_name" := by
    decide
  have e2 : ("$\x7bversion_name\x7d" : String).data = tok "version_name" := by decide
  have e3 : ("$\x7bgame_directory\x7d" : String).data = tok "game_directory" := by decide
  have e4 : ("$\x7bassets_root\x7d" : String).data = tok "assets_root" := by decide
  have e5 : ("$\x7bassets_index_name\x7d" : String).data = tok "assets_index_name" := by
    decide
  have e6 : ("$\x7bauth_uuid\x7d" : String).data = tok "auth_uuid" := by decide
  have e7 : ("$\x7bauth_access_token\x7d" : String).data = tok "auth_access_token" := by
    decide
  have e8 : ("$\x7buser_type\x7d" : String).data = tok "user_type" := by decide
  have e9 : ("$\x7bversion_type\x7d" : String).data = tok "version_type" := by decide
  have e10 : ("$\x7buser_properties\x7d" : String).data = tok "user_properties" := by
    decide
  have e11 : ("$\x7bgame_assets\x7d" : String).data = tok "game_assets" := by decide
  have e12 : ("$\x7bauth_session\x7d" : String).data = tok "auth_session" := by decide
  have e13 : (("." : String).data) = ['.'] := by decide
  have e14 : (("\x7b\x7d" : String).data) = ['\x7b', '\x7d'] := by decide
  simp only [substGame, sreplace, applyPairs, gamePairs, List.foldl_cons, List.foldl_nil,
    ← e1, ← e2, ← e3, ← e4, ← e5, ← e6, ← e7, ← e8, ← e9, ← e10, ← e11, ← e12, e13, e14]

/-- C8 amended: with username `Watson17` and the `net.minecraft` state
record at version `1.16.4`, `get_game_options` substitutes the templates
with the version taken from the state, and no known-key `$\x7b...\x7d`
token remains in any output string — provided the non-literal
substitution values (assets root, asset-index id, account uuid and token,
version type, game-assets path) are non-empty, free of `$` and `\x7d`,
and not fragments of the tokens themselves; without that proviso a value
can re-introduce a token (see the counterexample). -/
theorem c8_amended (paths : Paths) (meta : Meta) (st : State) (store : AccountsStore)
    (gameAssets assetsPath accPath : String) (args : List String)
    (hver : alook st "net.minecraft" = some (.GameComponent "1.16.4"))
    (hres : alook paths "resources" = some gameAssets)
    (hass : alook paths "assets" = some assetsPath)
    (hacc : alook paths "accounts" = some accPath)
    (hargs : alook meta.arguments "game" = some args)
    (hc1 : CleanValue assetsPath.data)
    (hc2 : CleanValue meta.assetIndex.id.data)
    (hc3 : CleanValue ((store.get_account "Watson17").getD Account.anonymous).uuid.data)
    (hc4 : CleanValue
      ((store.get_account "Watson17").getD Account.anonymous).access_token.data)
    (hc5 : CleanValue meta.type.data)
    (hc6 : CleanValue gameAssets.data) :
    get_game_options paths meta st store "Watson17" =
      .ok (args.map (substGame "Watson17" "1.16.4" assetsPath meta.assetIndex.id
        meta.type gameAssets ((store.get_account "Watson17").getD Account.anonymous))) ∧
    ∀ o ∈ args.map (substGame "Watson17" "1.16.4" assetsPath meta.assetIndex.id
        meta.type gameAssets ((store.get_account "Watson17").getD Account.anonymous)),
      ∀ k ∈ knownGameKeys, ¬ tok k <:+: o.data := by
  constructor
  · simp [get_game_options, getComponent, hver, getPathL_eq _ _ _ hres,
      getPathL_eq _ _ _ hass, getPathL_eq _ _ _ hacc, hargs, exceptBindOk, exceptPureEq]
  · intro o ho k hk
    obtain ⟨x, hx, rfl⟩ := List.mem_map.mp ho
    rw [substGame_eq_applyPairs, mk_data]
    exact chainNoTokenAll k _
      (gamePairs_clean assetsPath meta.assetIndex.id meta.type gameAssets _
        hc1 hc2 hc3 hc4 hc5 hc6 k hk)
      (gamePairs_split "Watson17" "1.16.4" assetsPath meta.assetIndex.id meta.type
        gameAssets _ k hk) x.data

/-- C8 amended witness: the full template list substitutes cleanly with
the example paths, account store and state. -/
theorem c8_amended_witness :
    get_game_options exPaths exMetaGame exState exStore "Watson17" =
      .ok (exGameTemplates.map (substGame "Watson17" "1.16.4" "A"
        exMetaGame.assetIndex.id exMetaGame.type "R"
        ((exStore.get_account "Watson17").getD Account.anonymous))) ∧
    ∀ o ∈ exGameTemplates.map (substGame "Watson17" "1.16.4" "A"
        exMetaGame.assetIndex.id exMetaGame.type "R"
        ((exStore.get_account "Watson17").getD Account.anonymous)),
      ∀ k ∈ knownGameKeys, ¬ tok k <:+: o.data :=
  c8_amended exPaths exMetaGame exState exStore "R" "A" "Acc" exGameTemplates
    (by decide) (by decide) (by decide) (by decide) (by decide) (by decide)
    (by decide) (by decide) (by decide) (by decide) (by decide)

end Rimca
